import Mathlib

/-!
Verification development for the Resume-Sorter repository.

The core of the repository (src/utils/gemini_processor.py and
src/components/filter.py) is shallowly embedded below: Python dictionaries
become association lists over an inductive value type `Val`, Python
exceptions become `Except String`, and the external collaborators
(the LLM call, `json.loads`, text extraction) become explicit parameters.
Machine-level details that the embedded code never relies on (float
rounding) are modelled with exact rationals.
-/

namespace ResumeSorter

/-- Python/JSON values as they flow through the pipeline:
`None`, booleans, integers, strings, lists and string-keyed dicts. -/
inductive Val where
  | null : Val
  | bool (b : Bool) : Val
  | int (n : Int) : Val
  | str (s : String) : Val
  | list (xs : List Val) : Val
  | dict (fields : List (String × Val)) : Val

/-- A Python dict is modelled as an association list (insertion order kept,
keys unique in every dict produced by `json.loads`). -/
abbrev Dict := List (String × Val)

/-- `d[k]` / `d.get(k)`: the value stored under key `k`, if present. -/
def dictGet {α : Type} : List (String × α) → String → Option α
  | [], _ => none
  | p :: d, k => if p.1 == k then some p.2 else dictGet d k

/-- `k in d` for a Python dict. -/
def dictHas {α : Type} : List (String × α) → String → Bool
  | [], _ => false
  | p :: d, k => p.1 == k || dictHas d k

/-- `d[k] = v`: overwrite the slot if the key exists, else append it
(Python dicts keep insertion order). -/
def dictSet {α : Type} : List (String × α) → String → α → List (String × α)
  | [], k, v => [(k, v)]
  | p :: d, k, v => if p.1 == k then (k, v) :: d else p :: dictSet d k v

/-- The keys of a dict, in order. -/
def dictKeys {α : Type} (d : List (String × α)) : List String :=
  d.map (fun p => p.1)

/-- Python `s.strip()` on a character list: drop leading and trailing
whitespace. -/
def stripChars (cs : List Char) : List Char :=
  ((cs.dropWhile Char.isWhitespace).reverse.dropWhile
    Char.isWhitespace).reverse

/-- Python `s.strip()`. -/
def pyStrip (s : String) : String := String.mk (stripChars s.toList)

/-- Python `s.lower()` (ASCII case folding, as the embedded strings use). -/
def lowerStr (s : String) : String := String.mk (s.toList.map Char.toLower)

/-- Substring test on character lists (Python's `needle in hay`). -/
def charsContain (hay needle : List Char) : Bool :=
  hay.tails.any (fun t => needle.isPrefixOf t)

/-- Python `needle in hay` for strings. -/
def pyContains (hay needle : String) : Bool :=
  charsContain hay.toList needle.toList

/-- Python `s.find(c)`: index of the first occurrence, `-1` if absent. -/
def pyFind : List Char → Char → Int
  | [], _ => -1
  | x :: xs, c =>
      if x = c then 0
      else
        let r := pyFind xs c
        if r < 0 then -1 else r + 1

/-- Python `s.rfind(c)`: index of the last occurrence, `-1` if absent. -/
def pyRFind : List Char → Char → Int
  | [], _ => -1
  | x :: xs, c =>
      let r := pyRFind xs c
      if 0 ≤ r then r + 1
      else if x = c then 0 else -1

/-- Python slice `s[a:b]` for the non-negative indices the code produces. -/
def pySlice (cs : List Char) (a b : Int) : List Char :=
  (cs.drop a.toNat).take (b - a).toNat

/-- Python truthiness (`if x:`). -/
def pyTruthy : Val → Bool
  | .null => false
  | .bool b => b
  | .int n => n != 0
  | .str s => !s.isEmpty
  | .list xs => !xs.isEmpty
  | .dict d => !d.isEmpty

mutual
/-- Python `repr`, which `str()` applies to the elements of containers.
Strings are rendered between single quotes (escape refinements of CPython's
`repr` are irrelevant to the substring properties proved below). -/
def pyRepr : Val → String
  | .null => "None"
  | .bool b => if b then "True" else "False"
  | .int n => toString n
  | .str s => "\x27" ++ s ++ "\x27"
  | .list xs => "[" ++ pyReprList xs ++ "]"
  | .dict d => "\x7b" ++ pyReprDict d ++ "\x7d"

/-- Comma-separated `repr` of list elements. -/
def pyReprList : List Val → String
  | [] => ""
  | [x] => pyRepr x
  | x :: y :: xs => pyRepr x ++ ", " ++ pyReprList (y :: xs)

/-- Comma-separated `repr` of dict items. -/
def pyReprDict : List (String × Val) → String
  | [] => ""
  | [(k, v)] => "\x27" ++ k ++ "\x27: " ++ pyRepr v
  | (k, v) :: q :: xs => "\x27" ++ k ++ "\x27: " ++ pyRepr v ++ ", " ++ pyReprDict (q :: xs)
end

/-- Python `str(v)`: the string itself for strings, `repr` otherwise
(as used by f-string interpolation and `str(resume)`). -/
def pyStrOf : Val → String
  | .str s => s
  | v => pyRepr v

/-- Decimal digit run, `none` when empty or a non-digit appears. -/
def parseDigits : List Char → Option Nat
  | [] => none
  | cs => cs.foldl (fun acc c =>
      match acc with
      | none => none
      | some n => if c.isDigit then some (n * 10 + (c.toNat - 48)) else none)
      (some 0)

/-- Python `int(s)` on a string: optional surrounding whitespace, optional
sign, decimal digits (`none` models `ValueError`). -/
def pyIntOfString (s : String) : Option Int :=
  match stripChars s.toList with
  | '-' :: rest => (parseDigits rest).map (fun n => -(n : Int))
  | '+' :: rest => (parseDigits rest).map (fun n => (n : Int))
  | cs => (parseDigits cs).map (fun n => (n : Int))

/-- Python `int(v)`, raising `ValueError`/`TypeError` as `Except.error`. -/
def pyInt : Val → Except String Int
  | .int n => .ok n
  | .bool b => .ok (if b then 1 else 0)
  | .str s =>
      match pyIntOfString s with
      | some n => .ok n
      | none => .error ("invalid literal for int() with base 10: " ++ s)
  | .null => .error "TypeError: int() argument cannot be None"
  | .list _ => .error "TypeError: int() argument cannot be a list"
  | .dict _ => .error "TypeError: int() argument cannot be a dict"

/-- The elements of a list as strings, raising `TypeError` at the first
non-string element (the check `join` performs while walking its argument). -/
def strListOfVals : List Val → Except String (List String)
  | [] => .ok []
  | .str s :: vs => do
      let rest ← strListOfVals vs
      pure (s :: rest)
  | _ :: _ => .error "TypeError: sequence item: expected str instance"

/-- Python `sep.join(xs)`: every element must already be a string,
otherwise a `TypeError` is raised. -/
def pyJoin (sep : String) (xs : List Val) : Except String String := do
  let ss ← strListOfVals xs
  pure (sep.intercalate ss)

/-- Python `v.lower()`: only defined on strings (`AttributeError` otherwise). -/
def pyLower : Val → Except String String
  | .str s => .ok (lowerStr s)
  | _ => .error "AttributeError: object has no attribute lower"

/-- Python iteration `for x in v`: lists yield elements, strings yield
one-character strings, dicts yield their keys. -/
def pyIter : Val → Except String (List Val)
  | .list xs => .ok xs
  | .str s => .ok (s.toList.map (fun c => .str (String.singleton c)))
  | .dict d => .ok (d.map (fun p => .str p.1))
  | _ => .error "TypeError: object is not iterable"

/-- Signed decimal rational `digits[.digits]`, modelling Python `float(str)`
on the plain numerals the pipeline meets (exact arithmetic instead of
binary floats, which the embedded comparisons never distinguish). -/
def pyFloatOfString (s : String) : Option ℚ :=
  let core : List Char → Option ℚ := fun cs =>
    match cs.splitOn '.' with
    | [whole] => (parseDigits whole).map (fun n => (n : ℚ))
    | [whole, frac] =>
        match parseDigits whole, parseDigits frac with
        | some w, some f => some ((w : ℚ) + (f : ℚ) / ((10 : ℚ) ^ frac.length))
        | _, _ => none
    | _ => none
  match stripChars s.toList with
  | '-' :: rest => (core rest).map (fun q => -q)
  | '+' :: rest => core rest
  | cs => core cs

/-- Python `float(v)` raising `ValueError`/`TypeError` as `Except.error`. -/
def pyFloat : Val → Except String ℚ
  | .int n => .ok (n : ℚ)
  | .bool b => .ok (if b then 1 else 0)
  | .str s =>
      match pyFloatOfString s with
      | some q => .ok q
      | none => .error ("could not convert string to float: " ++ s)
  | .null => .error "TypeError: float() argument cannot be None"
  | .list _ => .error "TypeError: float() argument cannot be a list"
  | .dict _ => .error "TypeError: float() argument cannot be a dict"

/-! ### GeminiProcessor._parse_response (src/utils/gemini_processor.py, lines 554-690)

`json.loads` is an external library call; it is passed in as a parameter
`loads : String → Option Dict` (the extracted brace span always starts with
a brace, so a successful parse is always an object; `none` models a raised
`JSONDecodeError`). -/

/-- The required field list (source line 574). -/
def requiredFields : List String :=
  ["name", "email", "phone", "location", "experience",
   "skills", "work_history", "education", "linkedin", "github",
   "languages", "certifications"]

/-- The fields that default to an empty list (source line 580). -/
def listDefaultFields : List String :=
  ["work_history", "education", "skills", "languages", "certifications",
   "match_reasons", "gap_analysis"]

/-- One iteration of the loop of lines 578-583: insert the field when
missing, `[]` for the list-typed ones and `""` otherwise. -/
def ensureStep (acc : Dict) (f : String) : Dict :=
  if dictHas acc f then acc
  else if listDefaultFields.contains f then dictSet acc f (.list [])
  else dictSet acc f (.str "")

/-- Lines 578-583: insert every missing required field. -/
def ensureRequired (d : Dict) : Dict :=
  requiredFields.foldl ensureStep d

/-- Lines 586-589: `int(...)` coercion of `experience`; a `None` value or a
`ValueError`/`TypeError` becomes 0. -/
def coerceExperience (d : Dict) : Dict :=
  match dictGet d "experience" with
  | none => dictSet d "experience" (.int 0)
  | some .null => dictSet d "experience" (.int 0)
  | some v =>
      match pyInt v with
      | .ok n => dictSet d "experience" (.int n)
      | .error _ => dictSet d "experience" (.int 0)

/-- Python `s += v` on strings: `TypeError` unless `v` is a string. -/
def strConcatVal (s : String) (v : Val) : Except String String :=
  match v with
  | .str t => .ok (s ++ t)
  | _ => .error "TypeError: can only concatenate str to str"

/-- Lines 592-593: a list-valued `skills` is joined with `", "`. -/
def flattenSkills (d : Dict) : Except String Dict :=
  match (dictGet d "skills").getD (.list []) with
  | .list xs => do
      let s ← pyJoin ", " xs
      pure (dictSet d "skills" (.str s))
  | _ => pure d

/-- Lines 600-611: one education entry rendered as
degree, `" from "` + institution (connector only when the accumulated
string is nonempty), `" (year)"`, `", field"`. -/
def flattenEduEntry (edu : Dict) : Except String String := do
  let s ← match dictGet edu "degree" with
    | some v => strConcatVal "" v
    | none => pure ""
  let s ← match dictGet edu "institution" with
    | some v => strConcatVal (if s = "" then s else s ++ " from ") v
    | none => pure s
  let s := match dictGet edu "year" with
    | some v => s ++ " (" ++ pyStrOf v ++ ")"
    | none => s
  let s := match dictGet edu "field" with
    | some v => s ++ ", " ++ pyStrOf v
    | none => s
  pure s

/-- One iteration of the loop of lines 598-611: flatten a dict entry and
append it, skip anything else. -/
def eduFoldStep (acc : List String) (e : Val) : Except String (List String) :=
  match e with
  | .dict ed => do
      let s ← flattenEduEntry ed
      pure (acc ++ [s])
  | _ => pure acc

/-- Lines 596-612: a list-valued `education` is flattened entry by entry
(non-dict entries are skipped) and joined with `"; "`. -/
def flattenEducation (d : Dict) : Except String Dict :=
  match (dictGet d "education").getD (.list []) with
  | .list xs => do
      let parts ← xs.foldlM eduFoldStep []
      pure (dictSet d "education" (.str ("; ".intercalate parts)))
  | _ => pure d

/-- Lines 615-625: a list-valued `languages` is flattened; dict entries
with a `name` render `name (proficiency)`, plain strings pass through,
anything else is skipped; the parts are joined with `", "`. -/
def flattenLanguages (d : Dict) : Except String Dict :=
  match (dictGet d "languages").getD (.list []) with
  | .list xs => do
      let parts ← xs.foldlM (fun (acc : List Val) lang =>
        match lang with
        | .dict ld =>
            if dictHas ld "name" then
              match dictGet ld "proficiency" with
              | some p => do
                  let base ← strConcatVal "" ((dictGet ld "name").getD .null)
                  pure (acc ++ [Val.str (base ++ " (" ++ pyStrOf p ++ ")")])
              | none => pure (acc ++ [(dictGet ld "name").getD .null])
            else pure acc
        | .str s => pure (acc ++ [Val.str s])
        | _ => pure acc) []
      let s ← pyJoin ", " parts
      pure (dictSet d "languages" (.str s))
  | _ => pure d

/-- Lines 628-629: a list-valued `certifications` is joined with `", "`. -/
def flattenCertifications (d : Dict) : Except String Dict :=
  match (dictGet d "certifications").getD (.list []) with
  | .list xs => do
      let s ← pyJoin ", " xs
      pure (dictSet d "certifications" (.str s))
  | _ => pure d

/-- Lines 636-645: one work-history entry rendered as position,
`" at "` + company (connector only when the accumulated string is
nonempty), `" (dates)"`. -/
def summarizeJob (job : Dict) : Except String String := do
  let s ← match dictGet job "position" with
    | some v => strConcatVal "" v
    | none => pure ""
  let s ← match dictGet job "company" with
    | some v => strConcatVal (if s = "" then s else s ++ " at ") v
    | none => pure s
  let s := match dictGet job "dates" with
    | some v => s ++ " (" ++ pyStrOf v ++ ")"
    | none => s
  pure s

/-- Lines 632-648: `work_history_summary` is the `"; "`-join of the entry
summaries when `work_history` is a non-empty list, `""` otherwise. -/
def summarizeWorkHistory (d : Dict) : Except String Dict :=
  match (dictGet d "work_history").getD (.list []) with
  | .list (x :: xs) => do
      let parts ← (x :: xs).foldlM (fun (acc : List String) j =>
        match j with
        | .dict jd => do
            let s ← summarizeJob jd
            pure (acc ++ [s])
        | _ => pure acc) []
      pure (dictSet d "work_history_summary" (.str ("; ".intercalate parts)))
  | _ => pure (dictSet d "work_history_summary" (.str ""))

/-- Lines 651-654: `match_reasons_text` is a bullet join when
`match_reasons` is present and a list, `""` otherwise. -/
def buildMatchReasonsText (d : Dict) : Except String Dict :=
  if dictHas d "match_reasons" then
    match (dictGet d "match_reasons").getD (.list []) with
    | .list xs => do
        let s ← pyJoin "\n- " xs
        pure (dictSet d "match_reasons_text" (.str ("- " ++ s)))
    | _ => pure (dictSet d "match_reasons_text" (.str ""))
  else pure (dictSet d "match_reasons_text" (.str ""))

/-- Lines 657-660: `gap_analysis_text` is a headed bullet join when
`gap_analysis` is present, a list and non-empty; a fixed sentinel
otherwise. -/
def buildGapAnalysisText (d : Dict) : Except String Dict :=
  if dictHas d "gap_analysis" then
    match (dictGet d "gap_analysis").getD (.list []) with
    | .list (x :: xs) => do
        let s ← pyJoin "\n- " (x :: xs)
        pure (dictSet d "gap_analysis_text"
          (.str ("Areas for improvement:\n- " ++ s)))
    | _ => pure (dictSet d "gap_analysis_text"
          (.str "No significant gaps identified."))
  else pure (dictSet d "gap_analysis_text"
          (.str "No significant gaps identified."))

/-- Lines 663-664: `match_score` defaults to 0 when absent. -/
def ensureMatchScore (d : Dict) : Dict :=
  if dictHas d "match_score" then d else dictSet d "match_score" (.int 0)

/-- The whole post-parse normalization of lines 573-666, in `Except`:
an error models an exception reaching the `except` clause of line 669. -/
def normalizeInfo (info : Dict) : Except String Dict := do
  let d := ensureRequired info
  let d := coerceExperience d
  let d ← flattenSkills d
  let d ← flattenEducation d
  let d ← flattenLanguages d
  let d ← flattenCertifications d
  let d ← summarizeWorkHistory d
  let d ← buildMatchReasonsText d
  let d ← buildGapAnalysisText d
  pure (ensureMatchScore d)

/-- Lines 566-570: the substring from the first `&#123;` to the last `&#125;`,
`none` when the span condition `json_start >= 0 and json_end > json_start`
fails. -/
def extractJsonSpan (response : String) : Option String :=
  let cs := response.toList
  let jsonStart := pyFind cs '\x7b'
  let jsonEnd := pyRFind cs '\x7d' + 1
  if jsonStart ≥ 0 ∧ jsonEnd > jsonStart then
    some (String.mk (pySlice cs jsonStart jsonEnd))
  else none

/-- Lines 671-690: the fixed fallback record returned on any parse or
normalization failure. -/
def fallbackRecord : Dict :=
  [("name", .str "Unknown"), ("email", .str ""), ("phone", .str ""),
   ("education", .str ""), ("experience", .int 0), ("skills", .str ""),
   ("location", .str ""), ("linkedin", .str ""), ("github", .str ""),
   ("languages", .str ""), ("certifications", .str ""),
   ("work_history", .list []), ("work_history_summary", .str ""),
   ("match_score", .int 0), ("match_reasons", .list []),
   ("match_reasons_text", .str ""), ("gap_analysis", .list []),
   ("gap_analysis_text", .str "No analysis available.")]

/-- The `try` block of `_parse_response` (lines 564-668). -/
def parseResponseCore (loads : String → Option Dict) (response : String) :
    Except String Dict :=
  match extractJsonSpan response with
  | some jsonStr =>
      match loads jsonStr with
      | some info => normalizeInfo info
      | none => .error "json.loads: Expecting value"
  | none => .error "No JSON object found in response"

/-- `GeminiProcessor._parse_response`: any failure inside the `try` block
yields the fixed fallback record (lines 669-690). -/
def parseResponse (loads : String → Option Dict) (response : String) : Dict :=
  match parseResponseCore loads response with
  | .ok d => d
  | .error _ => fallbackRecord

/-! ### RateLimiter (src/utils/gemini_processor.py, lines 24-55)

Delays are seconds; they are modelled with exact rationals (the embedded
arithmetic is division by 1.2 and multiplication by the backoff factor and
jitter, none of which the proofs push into float-rounding territory).
`wait()` only touches wall-clock time and is not modelled; the jitter drawn
by `random.uniform(0.8, 1.2)` is an explicit argument. -/

/-- The mutable state of a `RateLimiter` (line 28-33); `initial_delay` is
only the starting value of `current_delay` and is not stored. -/
structure RateLimiter where
  current_delay : ℚ
  max_delay : ℚ
  backoff_factor : ℚ

/-- `RateLimiter.__init__(initial_delay, max_delay, backoff_factor)`. -/
def RateLimiter.init (initial_delay max_delay backoff_factor : ℚ) :
    RateLimiter :=
  { current_delay := initial_delay, max_delay := max_delay,
    backoff_factor := backoff_factor }

/-- Lines 43-47: `current_delay = max(current_delay / 1.2, 1)` — the floor
in the source is the literal `1`, whatever `initial_delay` was. -/
def RateLimiter.success (r : RateLimiter) : RateLimiter :=
  { r with current_delay := max (r.current_delay / 1.2) 1 }

/-- Lines 49-55: `current_delay = min(current_delay * backoff_factor *
jitter, max_delay)`, returning the new delay. -/
def RateLimiter.failure (r : RateLimiter) (jitter : ℚ) : RateLimiter × ℚ :=
  let d := min (r.current_delay * r.backoff_factor * jitter) r.max_delay
  ({ r with current_delay := d }, d)

/-! ### GeminiProcessor._call_gemini_with_retry (lines 310-349)

The underlying `_call_gemini` outcomes are an explicit oracle
`outcomes : Nat → Outcome` (outcome of the i-th attempt); the observable
interactions with the rate limiter are recorded as a trace. -/

/-- Result of one underlying `_call_gemini` attempt. -/
inductive Outcome where
  | ok (response : String) : Outcome
  | err (msg : String) : Outcome

/-- One observable call into the shared rate limiter. -/
inductive RLCall where
  | wait : RLCall
  | success : RLCall
  | failure : RLCall
deriving DecidableEq

/-- The `while attempts < max_retries` loop of lines 327-346, recursing on
the remaining attempt budget; reaching 0 raises the terminal error of
line 349 (`str(None)` when no attempt ever ran). -/
def retryFrom (outcomes : Nat → Outcome) (maxRetries attempts : Nat)
    (lastExc : Option String) : Nat → Except String String × List RLCall
  | 0 => (.error ("Maximum retries (" ++ toString maxRetries ++
            ") exceeded: " ++ lastExc.getD "None"), [])
  | fuel + 1 =>
      match outcomes attempts with
      | .ok r => (.ok r, [.wait, .success])
      | .err e =>
          let rest := retryFrom outcomes maxRetries (attempts + 1) (some e) fuel
          (rest.1, .wait :: .failure :: rest.2)

/-- `GeminiProcessor._call_gemini_with_retry(prompt, max_retries)`: the
returned value (or raised error) together with the ordered trace of rate
limiter calls. -/
def callGeminiWithRetry (outcomes : Nat → Outcome) (maxRetries : Nat) :
    Except String String × List RLCall :=
  retryFrom outcomes maxRetries 0 none maxRetries

/-! ### ProcessingQueue (lines 57-144)

The queue, the per-task result map and the worker are modelled as a state
machine: `Step.add` is a caller's `add_task`, `Step.takeTask` is the
worker dequeuing one task and marking it `processing` (lines 93-97),
`Step.finishTask` is the worker recording the terminal state
(lines 99-120), `Step.exitWorker` is the worker observing the queue empty
and clearing the `processing` flag (lines 91, 124). -/

/-- Task status strings. -/
inductive TaskStatus where
  | queued : TaskStatus
  | processing : TaskStatus
  | completed : TaskStatus
  | failed : TaskStatus
  | unknown : TaskStatus
deriving DecidableEq

/-- One value of `self.results[task_id]`. -/
structure TaskEntry where
  status : TaskStatus
  data : Option Dict
  error : Option String

/-- `pathlib.Path(file_path).stem`: final path component without its last
suffix (a dot only counts when strictly inside the name). -/
def pathStem (p : String) : String :=
  let name := (p.toList.splitOn '/').getLastD []
  let i := pyRFind name '.'
  if 0 < i ∧ i < (name.length : Int) - 1 then String.mk (name.take i.toNat)
  else String.mk name

/-- `os.path.basename(file_path)`. -/
def pathBasenameStr (p : String) : String :=
  String.mk ((p.toList.splitOn '/').getLastD [])

/-- The fields of a `ProcessingQueue` (lines 61-67). -/
structure QueueState where
  queue : List (String × String × Option Dict)
  results : List (String × TaskEntry)
  processing : Bool

/-- `ProcessingQueue.__init__`. -/
def QueueState.init : QueueState :=
  { queue := [], results := [], processing := false }

/-- `ProcessingQueue.add_task` (lines 69-79): the task id is the file
stem, the task is enqueued, the results entry is (re)set to `queued`, and
`start_processing` is invoked when no worker runs — in either branch the
`processing` flag ends up true (the spawned worker itself is modelled by
the explicit worker steps below). -/
def add_task (st : QueueState) (file_path : String)
    (user_filters : Option Dict) : String × QueueState :=
  let task_id := pathStem file_path
  (task_id,
   { queue := st.queue ++ [(task_id, file_path, user_filters)],
     results := dictSet st.results task_id ⟨.queued, none, none⟩,
     processing := true })

/-- The worker's private state: the queue plus the task currently between
the `processing` write and its terminal write. -/
structure SysState where
  qs : QueueState
  current : Option String

/-- The initial system state. -/
def SysState.init : SysState :=
  { qs := QueueState.init, current := none }

/-- Interleavable events of the queue system. -/
inductive Step where
  | add (file_path : String) (user_filters : Option Dict) : Step
  | takeTask : Step
  | finishTask (res : Except String Dict) : Step
  | exitWorker : Step

/-- One event. Events whose guard does not hold leave the state unchanged
(the worker cannot dequeue from an empty queue, cannot finish without a
current task, cannot exit mid-task). -/
def stepSys (st : SysState) : Step → SysState
  | .add p uf => { st with qs := (add_task st.qs p uf).2 }
  | .takeTask =>
      match st.current, st.qs.queue with
      | none, (tid, _, _) :: rest =>
          let old := (dictGet st.qs.results tid).getD ⟨.queued, none, none⟩
          let newResults := dictSet st.qs.results tid
            ⟨.processing, old.data, old.error⟩
          { qs := { st.qs with queue := rest, results := newResults },
            current := some tid }
      | _, _ => st
  | .finishTask res =>
      match st.current with
      | some tid =>
          let entry : TaskEntry := match res with
            | .ok d => ⟨.completed, some d, none⟩
            | .error e => ⟨.failed, none, some e⟩
          { qs := { st.qs with results := dictSet st.qs.results tid entry },
            current := none }
      | none => st
  | .exitWorker =>
      if st.qs.queue.isEmpty && st.current.isNone then
        { st with qs := { st.qs with processing := false } }
      else st

/-- Run a list of events from a state. -/
def runSteps (st : SysState) (steps : List Step) : SysState :=
  steps.foldl stepSys st

/-- The status currently recorded for a task id, `none` when the id has
never been enqueued. -/
def statusOf (st : SysState) (tid : String) : Option TaskStatus :=
  (dictGet st.qs.results tid).map (fun e => e.status)

/-! ### GeminiProcessor.analyze_document / analyze_document_with_filters
(lines 169-308)

The external collaborators become an environment: the availability flag of
the client library, the text-extraction collaborator (total, per
src/utils/file_handler.py, which catches everything and returns strings),
the result of `_call_gemini_with_retry` on this document's prompt (an
error models the wrapper raising after exhausting retries), and
`json.loads`. The prompt strings of lines 417-552 only feed the LLM and
are not modelled. -/

structure GeminiEnv where
  geminiAvailable : Bool
  extractText : String → String
  retryResult : Except String String
  loads : String → Option Dict

/-- Lines 202-204 / 274-275: truncate to 30000 characters. -/
def truncate30000 (text : String) : String :=
  if text.length > 30000 then text.take 30000 else text

/-- The `ValueError` message of line 208. -/
def shortTextMsgDoc (file_path : String) (len : Nat) : String :=
  "Failed to extract meaningful text from " ++ file_path ++
    ". Text length: " ++ toString len

/-- The `ValueError` message of line 278. -/
def shortTextMsgFilters (file_path : String) : String :=
  "Failed to extract meaningful text from " ++ file_path ++ "."

/-- The structured error record of lines 227-238. -/
def errorRecordDoc (file_path msg : String) : Dict :=
  [("name", .str ("Error: " ++ msg.take 50 ++ "...")),
   ("email", .str ""), ("phone", .str ""), ("education", .str ""),
   ("experience", .int 0), ("skills", .str ""), ("location", .str ""),
   ("filename", .str (pathBasenameStr file_path)),
   ("file_path", .str file_path), ("error", .str msg)]

/-- The structured error record of lines 296-308 (adds `match_score`). -/
def errorRecordFilters (file_path msg : String) : Dict :=
  [("name", .str ("Error: " ++ msg.take 50 ++ "...")),
   ("email", .str ""), ("phone", .str ""), ("education", .str ""),
   ("experience", .int 0), ("skills", .str ""), ("location", .str ""),
   ("match_score", .int 0),
   ("filename", .str (pathBasenameStr file_path)),
   ("file_path", .str file_path), ("error", .str msg)]

/-- The early-return record of lines 180-191 when the client library is
missing. -/
def unavailableRecordDoc (file_path : String) : Dict :=
  [("name", .str "Error: Google Generative AI not available"),
   ("email", .str ""), ("phone", .str ""), ("education", .str ""),
   ("experience", .int 0), ("skills", .str ""), ("location", .str ""),
   ("filename", .str (pathBasenameStr file_path)),
   ("file_path", .str file_path),
   ("error", .str "Google Generative AI package not installed")]

/-- The early-return record of lines 252-264. -/
def unavailableRecordFilters (file_path : String) : Dict :=
  [("name", .str "Error: Google Generative AI not available"),
   ("email", .str ""), ("phone", .str ""), ("education", .str ""),
   ("experience", .int 0), ("skills", .str ""), ("location", .str ""),
   ("match_score", .int 0),
   ("filename", .str (pathBasenameStr file_path)),
   ("file_path", .str file_path),
   ("error", .str "Google Generative AI package not installed")]

/-- The `try` block of `analyze_document` (lines 193-223). -/
def analyzeDocCore (env : GeminiEnv) (file_path : String) :
    Except String Dict :=
  let filename := pathBasenameStr file_path
  let text := truncate30000 (env.extractText file_path)
  if text = "" ∨ text.length < 50 then
    .error (shortTextMsgDoc file_path text.length)
  else do
    let response ← env.retryResult
    let info := parseResponse env.loads response
    let info := dictSet info "filename" (.str filename)
    let info := dictSet info "file_path" (.str file_path)
    pure info

/-- `GeminiProcessor.analyze_document` (lines 169-238): total — every
exception inside the `try` block becomes the structured error record. -/
def analyzeDocument (env : GeminiEnv) (file_path : String) : Dict :=
  if !env.geminiAvailable then unavailableRecordDoc file_path
  else
    match analyzeDocCore env file_path with
    | .ok r => r
    | .error e => errorRecordDoc file_path e

/-- The `try` block of `analyze_document_with_filters` (lines 266-293);
`user_filters` only shapes the prompt, which is not modelled. -/
def analyzeFiltersCore (env : GeminiEnv) (file_path : String) :
    Except String Dict :=
  let filename := pathBasenameStr file_path
  let text := truncate30000 (env.extractText file_path)
  if text = "" ∨ text.length < 50 then
    .error (shortTextMsgFilters file_path)
  else do
    let response ← env.retryResult
    let info := parseResponse env.loads response
    let info := dictSet info "filename" (.str filename)
    let info := dictSet info "file_path" (.str file_path)
    pure info

/-- `GeminiProcessor.analyze_document_with_filters` (lines 240-308). -/
def analyzeDocumentWithFilters (env : GeminiEnv) (file_path : String) :
    Dict :=
  if !env.geminiAvailable then unavailableRecordFilters file_path
  else
    match analyzeFiltersCore env file_path with
    | .ok r => r
    | .error e => errorRecordFilters file_path e

/-! ### src/components/filter.py -/

/-- Helper for Python `s.split()`: words of a character list, the current
(reversed) word carried along. -/
def wordsAux : List Char → List Char → List (List Char)
  | [], acc => if acc.isEmpty then [] else [acc.reverse]
  | c :: cs, acc =>
      if c.isWhitespace then
        if acc.isEmpty then wordsAux cs [] else acc.reverse :: wordsAux cs []
      else wordsAux cs (c :: acc)

/-- Python `query.split()`: whitespace runs, empty pieces dropped. -/
def pyWords (q : String) : List String :=
  (wordsAux q.toList []).map String.mk

/-- Lines 53-57 of filter.py: lowercase tokens longer than 2 characters,
falling back to any non-empty token. -/
def keywordsOf (query : String) : List String :=
  let ws := pyWords query
  let ks := (ws.filter (fun w => (pyStrip w).length > 2)).map
    (fun w => lowerStr (pyStrip w))
  if ks.isEmpty then
    (ws.filter (fun w => (pyStrip w).length > 0)).map
      (fun w => lowerStr (pyStrip w))
  else ks

/-- `simple_keyword_filter` (filter.py lines 41-72). -/
def simple_keyword_filter (query : String) (resumes : List Dict) :
    List Dict :=
  let keywords := keywordsOf query
  if keywords.isEmpty then resumes
  else resumes.filter (fun r =>
    keywords.any (fun k => pyContains (lowerStr (pyRepr (.dict r))) k))

/-- `query.split(",")` with `strip()` applied to each piece
(filter.py lines 119, 130). -/
def commaSplit (q : String) : List String :=
  (q.toList.splitOn ',').map (fun cs => String.mk (stripChars cs))

/-- The degraded criteria object of filter.py lines 118-125 / 129-136. -/
def degradedFilters (query : String) : Dict :=
  [("skills", .list ((commaSplit query).map .str)),
   ("experience_years", .int 0), ("education", .null),
   ("job_titles", .list []), ("location", .null),
   ("keywords", .list [.str query])]

/-- `process_nlp_query` (filter.py lines 74-136): total — both the
missing-span branch and any raised exception produce the degraded
criteria. Note the span condition here compares `rfind` itself, not
`rfind + 1`. -/
def processNlpQuery (llm : Except String String)
    (loads : String → Option Dict) (query : String) : Dict :=
  match llm with
  | .error _ => degradedFilters query
  | .ok result =>
      let cs := (pyStrip result).toList
      let jsonStart := pyFind cs '\x7b'
      let jsonEnd := pyRFind cs '\x7d'
      if jsonStart ≥ 0 ∧ jsonEnd > jsonStart then
        match loads (String.mk (pySlice cs jsonStart (jsonEnd + 1))) with
        | some f => f
        | none => degradedFilters query
      else degradedFilters query

/-- `any(x.lower() in rt for x in xs)` with generator short-circuiting
(an element after the first hit is never evaluated). -/
def anyLowerContained (rt : String) : List Val → Except String Bool
  | [] => .ok false
  | v :: vs => do
      let l ← pyLower v
      if pyContains rt l then pure true else anyLowerContained rt vs

/-- Skills clause of `matches_filters` (filter.py lines 152-154). -/
def checkSkills (rt : String) (filters : Dict) : Except String Bool := do
  let v := (dictGet filters "skills").getD .null
  if pyTruthy v then do
    let xs ← pyIter v
    anyLowerContained rt xs
  else pure true

/-- Experience clause of `matches_filters` (lines 157-165): numeric
comparison, falling back to a `"<N>+"` substring test on
`ValueError`/`TypeError`. -/
def checkExperience (rt : String) (resume filters : Dict) :
    Except String Bool := do
  let fv := (dictGet filters "experience_years").getD .null
  if pyTruthy fv then
    match (do
        let a ← pyFloat ((dictGet resume "years_of_experience").getD (.int 0))
        let b ← pyFloat fv
        pure (decide (a < b)) : Except String Bool) with
    | .ok lt => pure !lt
    | .error _ => pure (pyContains rt (pyStrOf fv ++ "+"))
  else pure true

/-- Education clause (lines 168-170); the `is not None` conjunct is
subsumed by truthiness. -/
def checkEducation (rt : String) (filters : Dict) : Except String Bool := do
  let v := (dictGet filters "education").getD .null
  if pyTruthy v then do
    let l ← pyLower v
    pure (pyContains rt l)
  else pure true

/-- Job-title clause (lines 173-175). -/
def checkJobTitles (rt : String) (filters : Dict) : Except String Bool := do
  let v := (dictGet filters "job_titles").getD .null
  if pyTruthy v then do
    let xs ← pyIter v
    anyLowerContained rt xs
  else pure true

/-- Location clause (lines 178-180). -/
def checkLocation (rt : String) (filters : Dict) : Except String Bool := do
  let v := (dictGet filters "location").getD .null
  if pyTruthy v then do
    let l ← pyLower v
    pure (pyContains rt l)
  else pure true

/-- Keyword clause (lines 183-185). -/
def checkKeywords (rt : String) (filters : Dict) : Except String Bool := do
  let v := (dictGet filters "keywords").getD .null
  if pyTruthy v then do
    let xs ← pyIter v
    anyLowerContained rt xs
  else pure true

/-- `matches_filters` (filter.py lines 138-187): the clauses run in
source order and the first failing clause returns `False`, so a later
clause can neither run nor raise. -/
def matchesFilters (resume filters : Dict) : Except String Bool := do
  let rt := lowerStr (pyRepr (.dict resume))
  let ok ← checkSkills rt filters
  if !ok then pure false else do
  let ok ← checkExperience rt resume filters
  if !ok then pure false else do
  let ok ← checkEducation rt filters
  if !ok then pure false else do
  let ok ← checkJobTitles rt filters
  if !ok then pure false else do
  let ok ← checkLocation rt filters
  if !ok then pure false else do
  let ok ← checkKeywords rt filters
  if !ok then pure false else pure true

/-- The structured filtering loop of filter.py lines 24-27, in order,
aborting at the first raising record. -/
def filterListExc (f : Dict → Except String Bool) :
    List Dict → Except String (List Dict)
  | [] => .ok []
  | r :: rs => do
      let b ← f r
      let rest ← filterListExc f rs
      pure (if b then r :: rest else rest)

/-- `filter_resumes_with_nlp` (filter.py lines 4-39): empty query or no
records pass through; otherwise the structured pass runs, an empty result
or a raised exception falls back to `simple_keyword_filter`. -/
def filter_resumes_with_nlp (llm : Except String String)
    (loads : String → Option Dict) (query : String)
    (resumes : List Dict) : List Dict :=
  if !pyTruthy (.str query) || resumes.isEmpty then resumes
  else
    let filters := processNlpQuery llm loads query
    match filterListExc (fun r => matchesFilters r filters) resumes with
    | .ok filtered =>
        if filtered.isEmpty then simple_keyword_filter query resumes
        else filtered
    | .error _ => simple_keyword_filter query resumes

/-! ### Statement-level definitions -/

/-- The integer the `experience` coercion of lines 586-589 produces from a
stored value: `None` and coercion errors give 0. -/
def intCoerceOr0 (v : Val) : Int :=
  match v with
  | .null => 0
  | v =>
      match pyInt v with
      | .ok n => n
      | .error _ => 0

/-- The single-step forward edges of the per-task status machine
(`none` is "id never seen"); everything else must stay put. -/
def statusEdge : Option TaskStatus → Option TaskStatus → Bool
  | none, some .queued => true
  | some .queued, some .processing => true
  | some .processing, some .completed => true
  | some .processing, some .failed => true
  | a, b => decide (a = b)

/-- A step is collision-free when an `add_task` only introduces a stem not
already tracked in the results map. -/
def okStep (st : SysState) : Step → Bool
  | .add p _ => !dictHas st.qs.results (pathStem p)
  | _ => true

/-- A trace is collision-free when each step is, in the state it runs in. -/
def okTrace : SysState → List Step → Bool
  | _, [] => true
  | st, s :: rest => okStep st s && okTrace (stepSys st s) rest

/-- An education entry with the given optional sub-parts, in source field
order (degree and institution are strings when present, as a successful
flattening forces). -/
def eduEntryOf (degree institution : Option String) (year field : Option Val) :
    Dict :=
  (match degree with | some t => [("degree", Val.str t)] | none => []) ++
  (match institution with | some t => [("institution", Val.str t)] | none => []) ++
  (match year with | some y => [("year", y)] | none => []) ++
  (match field with | some f => [("field", f)] | none => [])

/-- The amended education format, following the amended claim's words:
degree, then `" from " + institution` when the accumulated prefix is
nonempty (just the institution otherwise), then always `" (year)"` when a
year is present, then always `", field"` when a field is present. -/
def eduSpecFormat (degree institution : Option String) (year field : Option Val) :
    String :=
  let s := degree.getD ""
  let s := match institution with
    | some i => (if s = "" then "" else s ++ " from ") ++ i
    | none => s
  let s := match year with
    | some y => s ++ " (" ++ pyStrOf y ++ ")"
    | none => s
  match field with
  | some f => s ++ ", " ++ pyStrOf f
  | none => s

/-! ## Shared lemmas about the embedding primitives -/

theorem dictGet_dictSet_self {α : Type} (d : List (String × α)) (k : String)
    (v : α) : dictGet (dictSet d k v) k = some v := by
  induction d with
  | nil => simp [dictSet, dictGet]
  | cons p d ih =>
      by_cases h : p.1 = k
      · simp [dictSet, dictGet, h]
      · simp [dictSet, dictGet, h, ih]

theorem dictGet_dictSet_ne {α : Type} (d : List (String × α)) (k k' : String)
    (v : α) (h : ¬ k' = k) :
    dictGet (dictSet d k v) k' = dictGet d k' := by
  have h' : ¬ k = k' := fun e => h e.symm
  induction d with
  | nil => simp [dictSet, dictGet, h']
  | cons p d ih =>
      by_cases hp : p.1 = k
      · have hpk' : ¬ p.1 = k' := by rw [hp]; exact h'
        simp [dictSet, dictGet, hp, h', hpk']
      · by_cases hp' : p.1 = k' <;> simp [dictSet, dictGet, hp, hp', h, ih]

theorem dictHas_dictSet {α : Type} (d : List (String × α)) (k k' : String)
    (v : α) : dictHas (dictSet d k v) k' = (k == k' || dictHas d k') := by
  induction d with
  | nil => simp [dictSet, dictHas]
  | cons p d ih =>
      by_cases hp : p.1 = k
      · subst hp
        by_cases hk : p.1 = k' <;> simp [dictSet, dictHas, hk]
      · by_cases hk : p.1 = k'
        · have hkk : ¬ k' = k := by rw [← hk]; exact hp
          simp [dictSet, dictHas, hp, hk, hkk, ih]
        · simp [dictSet, dictHas, hp, hk, ih, Bool.or_left_comm]

theorem dictHas_eq_isSome {α : Type} (d : List (String × α)) (k : String) :
    dictHas d k = (dictGet d k).isSome := by
  induction d with
  | nil => simp [dictHas, dictGet]
  | cons p d ih =>
      by_cases hp : p.1 = k <;> simp [dictHas, dictGet, hp, ih]

theorem exceptBind_ok_iff {ε α β : Type} (e : Except ε α)
    (f : α → Except ε β) (b : β) :
    (e >>= f = .ok b) ↔ ∃ a, e = .ok a ∧ f a = .ok b := by
  cases e <;> simp [Bind.bind, Except.bind]

theorem exceptPure_ok_iff {ε β : Type} (a b : β) :
    ((pure a : Except ε β) = .ok b) ↔ b = a := by
  constructor
  · intro h; cases h; rfl
  · intro h; cases h; rfl

theorem exceptOk_inj {ε α : Type} {a b : α}
    (h : (Except.ok a : Except ε α) = .ok b) : a = b := by
  injection h

theorem strListOfVals_map_str (ss : List String) :
    strListOfVals (ss.map Val.str) = .ok ss := by
  induction ss with
  | nil => rfl
  | cons s ss ih => simp [strListOfVals, ih, Bind.bind, Except.bind, pure,
      Except.pure]

theorem pyJoin_map_str (sep : String) (ss : List String) :
    pyJoin sep (ss.map Val.str) = .ok (sep.intercalate ss) := by
  simp [pyJoin, strListOfVals_map_str, Bind.bind, Except.bind, pure,
    Except.pure]

theorem pyFind_ge_neg_one (cs : List Char) (c : Char) : -1 ≤ pyFind cs c := by
  induction cs with
  | nil => simp [pyFind]
  | cons x xs ih =>
      by_cases hx : x = c
      · simp [pyFind, hx]
      · by_cases hr : pyFind xs c < 0
        · simp [pyFind, hx, hr]
        · simp [pyFind, hx, hr]
          omega

theorem pyRFind_ge_neg_one (cs : List Char) (c : Char) :
    -1 ≤ pyRFind cs c := by
  induction cs with
  | nil => simp [pyRFind]
  | cons x xs ih =>
      by_cases hr : 0 ≤ pyRFind xs c
      · simp [pyRFind, hr]; omega
      · by_cases hx : x = c <;> simp [pyRFind, hx, hr]

theorem pyFind_eq_neg_one_iff (cs : List Char) (c : Char) :
    pyFind cs c = -1 ↔ ¬ c ∈ cs := by
  induction cs with
  | nil => simp [pyFind]
  | cons x xs ih =>
      by_cases hx : x = c
      · simp [pyFind, hx]
      · have hxs : ¬ c = x := fun e => hx e.symm
        by_cases hr : pyFind xs c < 0
        · have h1 : pyFind xs c = -1 := by
            have := pyFind_ge_neg_one xs c; omega
          simp [pyFind, hx, hr, List.mem_cons, hxs, ih.mp h1]
        · have hmem : c ∈ xs := by
            by_contra hnm
            exact hr (by rw [ih.mpr hnm]; omega)
          simp [pyFind, hx, hr, List.mem_cons, hmem]
          omega

theorem pyRFind_eq_neg_one_iff (cs : List Char) (c : Char) :
    pyRFind cs c = -1 ↔ ¬ c ∈ cs := by
  induction cs with
  | nil => simp [pyRFind]
  | cons x xs ih =>
      by_cases hr : 0 ≤ pyRFind xs c
      · have hmem : c ∈ xs := by
          by_contra hnm
          have := ih.mpr hnm; omega
        simp [pyRFind, hr, List.mem_cons, hmem]
        omega
      · have h1 : pyRFind xs c = -1 := by
          have := pyRFind_ge_neg_one xs c; omega
        by_cases hx : x = c
        · simp [pyRFind, hr, hx]
        · have hxs : ¬ c = x := fun e => hx e.symm
          simp [pyRFind, hr, hx, List.mem_cons, hxs, ih.mp h1]

/-! ## Shape lemmas for the normalization stages -/

theorem shapeGet_ne {d r : Dict} {key k : String}
    (h : r = d ∨ ∃ v, r = dictSet d key v) (hk : ¬ k = key) :
    dictGet r k = dictGet d k := by
  rcases h with rfl | ⟨v, rfl⟩
  · rfl
  · exact dictGet_dictSet_ne d key k v hk

theorem shapeHas {d r : Dict} {key k : String}
    (h : r = d ∨ ∃ v, r = dictSet d key v) (hh : dictHas d k = true) :
    dictHas r k = true := by
  rcases h with rfl | ⟨v, rfl⟩
  · exact hh
  · rw [dictHas_dictSet]; simp [hh]

theorem flattenSkills_shape (d r : Dict) (h : flattenSkills d = .ok r) :
    r = d ∨ ∃ v, r = dictSet d "skills" v := by
  unfold flattenSkills at h
  split at h
  · rw [exceptBind_ok_iff] at h
    obtain ⟨s, _, hp⟩ := h
    rw [exceptPure_ok_iff] at hp
    exact .inr ⟨.str s, hp⟩
  · rw [exceptPure_ok_iff] at h
    exact .inl h

theorem flattenEducation_shape (d r : Dict) (h : flattenEducation d = .ok r) :
    r = d ∨ ∃ v, r = dictSet d "education" v := by
  unfold flattenEducation at h
  split at h
  · rw [exceptBind_ok_iff] at h
    obtain ⟨parts, _, hp⟩ := h
    rw [exceptPure_ok_iff] at hp
    exact .inr ⟨_, hp⟩
  · rw [exceptPure_ok_iff] at h
    exact .inl h

theorem flattenLanguages_shape (d r : Dict) (h : flattenLanguages d = .ok r) :
    r = d ∨ ∃ v, r = dictSet d "languages" v := by
  unfold flattenLanguages at h
  split at h
  · rw [exceptBind_ok_iff] at h
    obtain ⟨parts, _, hp⟩ := h
    rw [exceptBind_ok_iff] at hp
    obtain ⟨s, _, hp⟩ := hp
    rw [exceptPure_ok_iff] at hp
    exact .inr ⟨_, hp⟩
  · rw [exceptPure_ok_iff] at h
    exact .inl h

theorem flattenCertifications_shape (d r : Dict)
    (h : flattenCertifications d = .ok r) :
    r = d ∨ ∃ v, r = dictSet d "certifications" v := by
  unfold flattenCertifications at h
  split at h
  · rw [exceptBind_ok_iff] at h
    obtain ⟨s, _, hp⟩ := h
    rw [exceptPure_ok_iff] at hp
    exact .inr ⟨.str s, hp⟩
  · rw [exceptPure_ok_iff] at h
    exact .inl h

theorem summarizeWorkHistory_shape (d r : Dict)
    (h : summarizeWorkHistory d = .ok r) :
    ∃ v, r = dictSet d "work_history_summary" v := by
  unfold summarizeWorkHistory at h
  split at h
  · rw [exceptBind_ok_iff] at h
    obtain ⟨parts, _, hp⟩ := h
    rw [exceptPure_ok_iff] at hp
    exact ⟨_, hp⟩
  · rw [exceptPure_ok_iff] at h
    exact ⟨_, h⟩

theorem buildMatchReasonsText_shape (d r : Dict)
    (h : buildMatchReasonsText d = .ok r) :
    ∃ v, r = dictSet d "match_reasons_text" v := by
  unfold buildMatchReasonsText at h
  split at h
  · split at h
    · rw [exceptBind_ok_iff] at h
      obtain ⟨s, _, hp⟩ := h
      rw [exceptPure_ok_iff] at hp
      exact ⟨_, hp⟩
    · rw [exceptPure_ok_iff] at h
      exact ⟨_, h⟩
  · rw [exceptPure_ok_iff] at h
    exact ⟨_, h⟩

theorem buildGapAnalysisText_shape (d r : Dict)
    (h : buildGapAnalysisText d = .ok r) :
    ∃ v, r = dictSet d "gap_analysis_text" v := by
  unfold buildGapAnalysisText at h
  split at h
  · split at h
    · rw [exceptBind_ok_iff] at h
      obtain ⟨s, _, hp⟩ := h
      rw [exceptPure_ok_iff] at hp
      exact ⟨_, hp⟩
    · rw [exceptPure_ok_iff] at h
      exact ⟨_, h⟩
  · rw [exceptPure_ok_iff] at h
    exact ⟨_, h⟩

theorem coerceExperience_shape (d : Dict) :
    ∃ n : Int, coerceExperience d = dictSet d "experience" (.int n) := by
  unfold coerceExperience
  split
  · exact ⟨0, rfl⟩
  · exact ⟨0, rfl⟩
  · split
    · exact ⟨_, rfl⟩
    · exact ⟨0, rfl⟩

theorem ensureMatchScore_shape (d : Dict) :
    ensureMatchScore d = d ∨
      ∃ v, ensureMatchScore d = dictSet d "match_score" v := by
  unfold ensureMatchScore
  split
  · exact .inl rfl
  · exact .inr ⟨_, rfl⟩

/-! ## Lemmas about `ensureRequired` -/

theorem ensureStep_get_ne (d : Dict) (f k : String) (hk : ¬ k = f) :
    dictGet (ensureStep d f) k = dictGet d k := by
  unfold ensureStep
  split
  · rfl
  · split
    · exact dictGet_dictSet_ne _ _ _ _ hk
    · exact dictGet_dictSet_ne _ _ _ _ hk

theorem ensureStep_get_self_present (d : Dict) (f : String) (v : Val)
    (hget : dictGet d f = some v) :
    dictGet (ensureStep d f) f = some v := by
  have hd : dictHas d f = true := by
    rw [dictHas_eq_isSome, hget]; rfl
  simp [ensureStep, hd, hget]

theorem ensureStep_get_self_absent_list (d : Dict) (f : String)
    (hget : dictGet d f = none)
    (hc : listDefaultFields.contains f = true) :
    dictGet (ensureStep d f) f = some (.list []) := by
  have hd : dictHas d f = false := by
    rw [dictHas_eq_isSome, hget]; rfl
  have hm : f ∈ listDefaultFields := by simpa using hc
  simp [ensureStep, hd, hm, dictGet_dictSet_self]

theorem ensureStep_get_self_absent_str (d : Dict) (f : String)
    (hget : dictGet d f = none)
    (hc : listDefaultFields.contains f = false) :
    dictGet (ensureStep d f) f = some (.str "") := by
  have hd : dictHas d f = false := by
    rw [dictHas_eq_isSome, hget]; rfl
  have hm : ¬ f ∈ listDefaultFields := by simpa using hc
  simp [ensureStep, hd, hm, dictGet_dictSet_self]

theorem ensureStep_has_mono (d : Dict) (f k : String)
    (hh : dictHas d k = true) : dictHas (ensureStep d f) k = true := by
  unfold ensureStep
  split
  · exact hh
  · split
    · rw [dictHas_dictSet]; simp [hh]
    · rw [dictHas_dictSet]; simp [hh]

theorem foldEnsure_get_ne (fs : List String) (d : Dict) (k : String)
    (hk : ∀ f ∈ fs, ¬ k = f) :
    dictGet (fs.foldl ensureStep d) k = dictGet d k := by
  induction fs generalizing d with
  | nil => rfl
  | cons f fs ih =>
      simp only [List.foldl]
      rw [ih _ (fun g hg => hk g (List.mem_cons_of_mem f hg)),
        ensureStep_get_ne d f k (hk f (List.mem_cons_self f fs))]

theorem foldEnsure_has_mono (fs : List String) (d : Dict) (k : String)
    (hh : dictHas d k = true) :
    dictHas (fs.foldl ensureStep d) k = true := by
  induction fs generalizing d with
  | nil => exact hh
  | cons f fs ih =>
      simp only [List.foldl]
      exact ih _ (ensureStep_has_mono d f k hh)

theorem foldEnsure_has_mem (fs : List String) (d : Dict) (k : String)
    (hk : k ∈ fs) : dictHas (fs.foldl ensureStep d) k = true := by
  induction fs generalizing d with
  | nil => cases hk
  | cons f fs ih =>
      simp only [List.foldl]
      rcases List.mem_cons.mp hk with rfl | hk'
      · apply foldEnsure_has_mono
        rcases hget : dictGet d k with _ | v
        · rcases hc : listDefaultFields.contains k
          · rw [dictHas_eq_isSome,
              ensureStep_get_self_absent_str d k hget hc]
            rfl
          · rw [dictHas_eq_isSome,
              ensureStep_get_self_absent_list d k hget hc]
            rfl
        · rw [dictHas_eq_isSome, ensureStep_get_self_present d k v hget]
          rfl
      · exact ih _ hk'

theorem ensureRequired_has (d : Dict) (k : String) (hk : k ∈ requiredFields) :
    dictHas (ensureRequired d) k = true :=
  foldEnsure_has_mem _ _ _ hk

theorem ensureRequired_get_experience (d : Dict) :
    dictGet (ensureRequired d) "experience" =
      some ((dictGet d "experience").getD (.str "")) := by
  have hsplit : requiredFields =
      (["name", "email", "phone", "location"] ++ ["experience"]) ++
      ["skills", "work_history", "education", "linkedin", "github",
       "languages", "certifications"] := rfl
  rw [ensureRequired, hsplit, List.foldl_append, List.foldl_append]
  rw [foldEnsure_get_ne _ _ _ (by decide)]
  have hfold : List.foldl ensureStep
      (List.foldl ensureStep d ["name", "email", "phone", "location"])
      ["experience"] =
      ensureStep (List.foldl ensureStep d ["name", "email", "phone",
        "location"]) "experience" := rfl
  rw [hfold]
  have hpre : dictGet
      (List.foldl ensureStep d ["name", "email", "phone", "location"])
      "experience" = dictGet d "experience" :=
    foldEnsure_get_ne _ _ _ (by decide)
  rcases hget : dictGet d "experience" with _ | v
  · rw [ensureStep_get_self_absent_str _ _ (hpre.trans hget) rfl]
    rfl
  · rw [ensureStep_get_self_present _ _ v (hpre.trans hget)]
    rfl

theorem ensureRequired_get_skills (d : Dict) :
    dictGet (ensureRequired d) "skills" =
      some ((dictGet d "skills").getD (.list [])) := by
  have hsplit : requiredFields =
      (["name", "email", "phone", "location", "experience"] ++ ["skills"]) ++
      ["work_history", "education", "linkedin", "github",
       "languages", "certifications"] := rfl
  rw [ensureRequired, hsplit, List.foldl_append, List.foldl_append]
  rw [foldEnsure_get_ne _ _ _ (by decide)]
  have hfold : List.foldl ensureStep
      (List.foldl ensureStep d
        ["name", "email", "phone", "location", "experience"])
      ["skills"] =
      ensureStep (List.foldl ensureStep d ["name", "email", "phone",
        "location", "experience"]) "skills" := rfl
  rw [hfold]
  have hpre : dictGet
      (List.foldl ensureStep d
        ["name", "email", "phone", "location", "experience"])
      "skills" = dictGet d "skills" :=
    foldEnsure_get_ne _ _ _ (by decide)
  rcases hget : dictGet d "skills" with _ | v
  · rw [ensureStep_get_self_absent_list _ _ (hpre.trans hget) rfl]
    rfl
  · rw [ensureStep_get_self_present _ _ v (hpre.trans hget)]
    rfl

/-! ## The normalization chain -/

theorem normalizeInfo_parts (o r : Dict) (h : normalizeInfo o = .ok r) :
    ∃ d1 d2 d3 d4 d5 d6 d7,
      flattenSkills (coerceExperience (ensureRequired o)) = .ok d1 ∧
      flattenEducation d1 = .ok d2 ∧
      flattenLanguages d2 = .ok d3 ∧
      flattenCertifications d3 = .ok d4 ∧
      summarizeWorkHistory d4 = .ok d5 ∧
      buildMatchReasonsText d5 = .ok d6 ∧
      buildGapAnalysisText d6 = .ok d7 ∧
      r = ensureMatchScore d7 := by
  unfold normalizeInfo at h
  rw [exceptBind_ok_iff] at h
  obtain ⟨d1, h1, h⟩ := h
  rw [exceptBind_ok_iff] at h
  obtain ⟨d2, h2, h⟩ := h
  rw [exceptBind_ok_iff] at h
  obtain ⟨d3, h3, h⟩ := h
  rw [exceptBind_ok_iff] at h
  obtain ⟨d4, h4, h⟩ := h
  rw [exceptBind_ok_iff] at h
  obtain ⟨d5, h5, h⟩ := h
  rw [exceptBind_ok_iff] at h
  obtain ⟨d6, h6, h⟩ := h
  rw [exceptBind_ok_iff] at h
  obtain ⟨d7, h7, h⟩ := h
  rw [exceptPure_ok_iff] at h
  exact ⟨d1, d2, d3, d4, d5, d6, d7, h1, h2, h3, h4, h5, h6, h7, h⟩

theorem normalize_has (o r : Dict) (h : normalizeInfo o = .ok r) (k : String)
    (hk : k ∈ requiredFields) : dictHas r k = true := by
  obtain ⟨d1, d2, d3, d4, d5, d6, d7, h1, h2, h3, h4, h5, h6, h7, hr⟩ :=
    normalizeInfo_parts o r h
  have e0 : dictHas (ensureRequired o) k = true := ensureRequired_has o k hk
  obtain ⟨n, hc⟩ := coerceExperience_shape (ensureRequired o)
  have e1 : dictHas (coerceExperience (ensureRequired o)) k = true := by
    rw [hc, dictHas_dictSet]; simp [e0]
  have e2 := shapeHas (flattenSkills_shape _ _ h1) e1
  have e3 := shapeHas (flattenEducation_shape _ _ h2) e2
  have e4 := shapeHas (flattenLanguages_shape _ _ h3) e3
  have e5 := shapeHas (flattenCertifications_shape _ _ h4) e4
  obtain ⟨v5, hv5⟩ := summarizeWorkHistory_shape _ _ h5
  have e6 : dictHas d5 k = true := by rw [hv5, dictHas_dictSet]; simp [e5]
  obtain ⟨v6, hv6⟩ := buildMatchReasonsText_shape _ _ h6
  have e7 : dictHas d6 k = true := by rw [hv6, dictHas_dictSet]; simp [e6]
  obtain ⟨v7, hv7⟩ := buildGapAnalysisText_shape _ _ h7
  have e8 : dictHas d7 k = true := by rw [hv7, dictHas_dictSet]; simp [e7]
  rw [hr]
  rcases ensureMatchScore_shape d7 with he | ⟨v8, he⟩
  · rw [he]; exact e8
  · rw [he, dictHas_dictSet]; simp [e8]

theorem normalize_has_whs (o r : Dict) (h : normalizeInfo o = .ok r) :
    dictHas r "work_history_summary" = true := by
  obtain ⟨d1, d2, d3, d4, d5, d6, d7, h1, h2, h3, h4, h5, h6, h7, hr⟩ :=
    normalizeInfo_parts o r h
  obtain ⟨v5, hv5⟩ := summarizeWorkHistory_shape _ _ h5
  have e6 : dictHas d5 "work_history_summary" = true := by
    rw [hv5, dictHas_dictSet]; simp
  obtain ⟨v6, hv6⟩ := buildMatchReasonsText_shape _ _ h6
  have e7 : dictHas d6 "work_history_summary" = true := by
    rw [hv6, dictHas_dictSet]; simp [e6]
  obtain ⟨v7, hv7⟩ := buildGapAnalysisText_shape _ _ h7
  have e8 : dictHas d7 "work_history_summary" = true := by
    rw [hv7, dictHas_dictSet]; simp [e7]
  rw [hr]
  rcases ensureMatchScore_shape d7 with he | ⟨v8, he⟩
  · rw [he]; exact e8
  · rw [he, dictHas_dictSet]; simp [e8]

theorem coerceExperience_of_ensure (o : Dict) :
    coerceExperience (ensureRequired o) =
      dictSet (ensureRequired o) "experience"
        (.int (intCoerceOr0 ((dictGet o "experience").getD (.str "")))) := by
  have hens := ensureRequired_get_experience o
  unfold coerceExperience
  rw [hens]
  rcases hw : (dictGet o "experience").getD (.str "") with _ | b | n | s | xs | f
  · simp [intCoerceOr0]
  · simp [intCoerceOr0, pyInt]
  · simp [intCoerceOr0, pyInt]
  · rcases hpi : pyIntOfString s with _ | m <;>
      simp [intCoerceOr0, pyInt, hpi]
  · simp [intCoerceOr0, pyInt]
  · simp [intCoerceOr0, pyInt]

theorem normalize_experience (o r : Dict) (h : normalizeInfo o = .ok r) :
    dictGet r "experience" =
      some (.int (intCoerceOr0 ((dictGet o "experience").getD (.str "")))) := by
  obtain ⟨d1, d2, d3, d4, d5, d6, d7, h1, h2, h3, h4, h5, h6, h7, hr⟩ :=
    normalizeInfo_parts o r h
  have g0 : dictGet (coerceExperience (ensureRequired o)) "experience" =
      some (.int (intCoerceOr0 ((dictGet o "experience").getD (.str "")))) := by
    rw [coerceExperience_of_ensure]
    exact dictGet_dictSet_self _ _ _
  have g1 := shapeGet_ne (flattenSkills_shape _ _ h1)
    (show ¬ "experience" = "skills" by decide)
  have g2 := shapeGet_ne (flattenEducation_shape _ _ h2)
    (show ¬ "experience" = "education" by decide)
  have g3 := shapeGet_ne (flattenLanguages_shape _ _ h3)
    (show ¬ "experience" = "languages" by decide)
  have g4 := shapeGet_ne (flattenCertifications_shape _ _ h4)
    (show ¬ "experience" = "certifications" by decide)
  obtain ⟨v5, hv5⟩ := summarizeWorkHistory_shape _ _ h5
  have g5 : dictGet d5 "experience" = dictGet d4 "experience" := by
    rw [hv5]; exact dictGet_dictSet_ne _ _ _ _ (by decide)
  obtain ⟨v6, hv6⟩ := buildMatchReasonsText_shape _ _ h6
  have g6 : dictGet d6 "experience" = dictGet d5 "experience" := by
    rw [hv6]; exact dictGet_dictSet_ne _ _ _ _ (by decide)
  obtain ⟨v7, hv7⟩ := buildGapAnalysisText_shape _ _ h7
  have g7 : dictGet d7 "experience" = dictGet d6 "experience" := by
    rw [hv7]; exact dictGet_dictSet_ne _ _ _ _ (by decide)
  have g8 : dictGet r "experience" = dictGet d7 "experience" := by
    rw [hr]
    rcases ensureMatchScore_shape d7 with he | ⟨v8, he⟩
    · rw [he]
    · rw [he]; exact dictGet_dictSet_ne _ _ _ _ (by decide)
  rw [g8, g7, g6, g5, g4, g3, g2, g1, g0]

theorem normalize_skills (o r : Dict) (h : normalizeInfo o = .ok r)
    (ss : List String)
    (hss : (dictGet o "skills").getD (.list []) = .list (ss.map Val.str)) :
    dictGet r "skills" = some (.str (", ".intercalate ss)) := by
  obtain ⟨d1, d2, d3, d4, d5, d6, d7, h1, h2, h3, h4, h5, h6, h7, hr⟩ :=
    normalizeInfo_parts o r h
  have hsk : dictGet (coerceExperience (ensureRequired o)) "skills" =
      some (.list (ss.map Val.str)) := by
    rw [coerceExperience_of_ensure]
    rw [dictGet_dictSet_ne _ _ _ _ (show ¬ "skills" = "experience" by decide)]
    rw [ensureRequired_get_skills, hss]
  have hfl : flattenSkills (coerceExperience (ensureRequired o)) =
      .ok (dictSet (coerceExperience (ensureRequired o)) "skills"
        (.str (", ".intercalate ss))) := by
    unfold flattenSkills
    rw [hsk]
    simp [pyJoin_map_str, Bind.bind, Except.bind, pure, Except.pure]
  have hd1 : d1 = dictSet (coerceExperience (ensureRequired o)) "skills"
      (.str (", ".intercalate ss)) :=
    (exceptOk_inj (hfl.symm.trans h1)).symm
  have g1 : dictGet d1 "skills" = some (.str (", ".intercalate ss)) := by
    rw [hd1]; exact dictGet_dictSet_self _ _ _
  have g2 := shapeGet_ne (flattenEducation_shape _ _ h2)
    (show ¬ "skills" = "education" by decide)
  have g3 := shapeGet_ne (flattenLanguages_shape _ _ h3)
    (show ¬ "skills" = "languages" by decide)
  have g4 := shapeGet_ne (flattenCertifications_shape _ _ h4)
    (show ¬ "skills" = "certifications" by decide)
  obtain ⟨v5, hv5⟩ := summarizeWorkHistory_shape _ _ h5
  have g5 : dictGet d5 "skills" = dictGet d4 "skills" := by
    rw [hv5]; exact dictGet_dictSet_ne _ _ _ _ (by decide)
  obtain ⟨v6, hv6⟩ := buildMatchReasonsText_shape _ _ h6
  have g6 : dictGet d6 "skills" = dictGet d5 "skills" := by
    rw [hv6]; exact dictGet_dictSet_ne _ _ _ _ (by decide)
  obtain ⟨v7, hv7⟩ := buildGapAnalysisText_shape _ _ h7
  have g7 : dictGet d7 "skills" = dictGet d6 "skills" := by
    rw [hv7]; exact dictGet_dictSet_ne _ _ _ _ (by decide)
  have g8 : dictGet r "skills" = dictGet d7 "skills" := by
    rw [hr]
    rcases ensureMatchScore_shape d7 with he | ⟨v8, he⟩
    · rw [he]
    · rw [he]; exact dictGet_dictSet_ne _ _ _ _ (by decide)
  rw [g8, g7, g6, g5, g4, g3, g2, g1]

theorem parseResponseCore_ok (loads : String → Option Dict)
    (resp : String) (r : Dict) (h : parseResponseCore loads resp = .ok r) :
    ∃ s o, extractJsonSpan resp = some s ∧ loads s = some o ∧
      normalizeInfo o = .ok r := by
  unfold parseResponseCore at h
  cases hspan : extractJsonSpan resp with
  | none => rw [hspan] at h; simp at h
  | some s =>
      rw [hspan] at h
      have h' : (match loads s with
          | some info => normalizeInfo info
          | none =>
              (Except.error "json.loads: Expecting value" :
                Except String Dict)) = Except.ok r := h
      cases hload : loads s with
      | none => rw [hload] at h'; simp at h'
      | some o =>
          rw [hload] at h'
          refine ⟨s, o, ?_, ?_, by simpa using h'⟩
          · simp [hspan]
          · simp [hload]

theorem parseResponse_has (loads : String → Option Dict) (resp : String)
    (k : String) (hk : k ∈ requiredFields ++ ["work_history_summary"]) :
    dictHas (parseResponse loads resp) k = true := by
  unfold parseResponse
  cases hcore : parseResponseCore loads resp with
  | error e =>
      fin_cases hk <;> rfl
  | ok r =>
      obtain ⟨s, o, _, _, hn⟩ := parseResponseCore_ok loads resp r hcore
      rcases List.mem_append.mp hk with hk' | hk'
      · exact normalize_has o r hn k hk'
      · have : k = "work_history_summary" := by simpa using hk'
        subst this
        exact normalize_has_whs o r hn

/-! ## Claim theorems -/

/-- C6 (code bug in `RateLimiter.success`, line 47): the class docstring
and the comment say the delay is "not below initial", but the floor in the
code is the literal `1`. With `initial_delay = 2` a single `success()`
call drops `current_delay` to `5/3 < 2`, breaking the claimed invariant
`initial_delay ≤ current_delay`. -/
theorem rateLimiter_success_below_initial :
    ((RateLimiter.init 2 60 1.5).success).current_delay = 5 / 3 ∧
      ((RateLimiter.init 2 60 1.5).success).current_delay < 2 := by
  have h : ((RateLimiter.init 2 60 1.5).success).current_delay = 5 / 3 := by
    show max ((2 : ℚ) / 1.2) 1 = 5 / 3
    rw [max_eq_left (by norm_num)]
    norm_num
  exact ⟨h, by rw [h]; norm_num⟩

/-- C5: the retry wrapper with outcomes fail, fail, succeed returns the
third attempt's response; the rate limiter sees exactly the call sequence
wait, failure, wait, failure, wait, success (so `wait` precedes each of
the three attempts, with two `failure()` and one `success()` call); and
when every one of the `max_retries = 3` attempts fails, the wrapper raises
an error embedding the last underlying exception's message. -/
theorem retry_two_failures_then_success (a b r : String)
    (outcomes : Nat → Outcome)
    (h0 : outcomes 0 = .err a) (h1 : outcomes 1 = .err b)
    (h2 : outcomes 2 = .ok r) :
    (callGeminiWithRetry outcomes 3).1 = .ok r ∧
    (callGeminiWithRetry outcomes 3).2 =
      [.wait, .failure, .wait, .failure, .wait, .success] ∧
    (callGeminiWithRetry outcomes 3).2.count .failure = 2 ∧
    (callGeminiWithRetry outcomes 3).2.count .success = 1 ∧
    (callGeminiWithRetry outcomes 3).2.count .wait = 3 ∧
    (∀ (o2 : Nat → Outcome) (m : Nat → String),
      (∀ i, i < 3 → o2 i = .err (m i)) →
      (callGeminiWithRetry o2 3).1 =
        .error ("Maximum retries (3) exceeded: " ++ m 2)) := by
  have hlist : (callGeminiWithRetry outcomes 3).2 =
      [.wait, .failure, .wait, .failure, .wait, .success] := by
    show (retryFrom outcomes 3 0 none 3).2 = _
    simp [retryFrom, h0, h1, h2]
  have hres : (callGeminiWithRetry outcomes 3).1 = .ok r := by
    show (retryFrom outcomes 3 0 none 3).1 = _
    simp [retryFrom, h0, h1, h2]
  refine ⟨hres, hlist, ?_, ?_, ?_, ?_⟩
  · rw [hlist]; rfl
  · rw [hlist]; rfl
  · rw [hlist]; rfl
  · intro o2 m hm
    show (retryFrom o2 3 0 none 3).1 = _
    simp [retryFrom, hm 0 (by omega), hm 1 (by omega), hm 2 (by omega)]
    rfl

/-- C5 witness: the retry theorem applied to a concrete outcome oracle
that fails twice and then succeeds. -/
theorem retry_two_failures_then_success_witness :
    (callGeminiWithRetry
      (fun i => if i < 2 then .err ("e" ++ toString i) else .ok "resp")
      3).1 = .ok "resp" ∧
    (callGeminiWithRetry
      (fun i => if i < 2 then .err ("e" ++ toString i) else .ok "resp")
      3).2 = [.wait, .failure, .wait, .failure, .wait, .success] := by
  have h := retry_two_failures_then_success "e0" "e1" "resp"
    (fun i => if i < 2 then .err ("e" ++ toString i) else .ok "resp")
    rfl rfl rfl
  exact ⟨h.1, h.2.1⟩

/-- C1 counterexample: the task id is the file stem, so enqueuing
`data/x.pdf` and `other/x.pdf` yields the SAME id `"x"` (the claim says
two distinct ids), and the second enqueue resets the completed entry of
the first task back to a fresh `queued` entry (the claim says entries are
never overwritten by a later enqueue). -/
theorem add_task_ids_collide :
    (add_task QueueState.init "data/x.pdf" none).1 =
      (add_task (add_task QueueState.init "data/x.pdf" none).2
        "other/x.pdf" none).1 ∧
    dictGet (runSteps SysState.init
      [.add "data/x.pdf" none, .takeTask, .finishTask (.ok []),
       .add "other/x.pdf" none]).qs.results "x" =
      some ⟨.queued, none, none⟩ ∧
    dictGet (runSteps SysState.init
      [.add "data/x.pdf" none, .takeTask, .finishTask (.ok [])]).qs.results
      "x" = some ⟨.completed, some [], none⟩ :=
  ⟨rfl, rfl, rfl⟩

/-- C1 amended: `add_task` returns the file's stem as the task id, so ids
are distinct exactly when the enqueued files have distinct stems: a second
enqueue with the same stem returns the same id and overwrites that id's
entry with a fresh `queued` entry, while a second enqueue with a different
stem leaves the first id's entry untouched. -/
theorem add_task_stem_semantics (st : QueueState) (p q : String)
    (uf1 uf2 : Option Dict) :
    (add_task st p uf1).1 = pathStem p ∧
    (pathStem q = pathStem p →
      (add_task (add_task st p uf1).2 q uf2).1 = (add_task st p uf1).1 ∧
      dictGet (add_task (add_task st p uf1).2 q uf2).2.results
        (pathStem p) = some ⟨.queued, none, none⟩) ∧
    (¬ pathStem q = pathStem p →
      ¬ (add_task (add_task st p uf1).2 q uf2).1 = (add_task st p uf1).1 ∧
      dictGet (add_task (add_task st p uf1).2 q uf2).2.results
        (pathStem p) =
        dictGet (add_task st p uf1).2.results (pathStem p)) := by
  have hres : (add_task (add_task st p uf1).2 q uf2).2.results =
      dictSet (add_task st p uf1).2.results (pathStem q)
        ⟨.queued, none, none⟩ := rfl
  refine ⟨rfl, fun heq => ⟨by simp [add_task, heq], ?_⟩,
    fun hne => ⟨by simp [add_task, hne], ?_⟩⟩
  · rw [hres, heq]
    exact dictGet_dictSet_self _ _ _
  · rw [hres]
    exact dictGet_dictSet_ne _ _ _ _ (fun e => hne e.symm)

/-- C1 amended witness: concrete collision (`a/x.pdf` then `b/x.pdf`)
and concrete non-collision (`a/x.pdf` then `a/y.pdf`). -/
theorem add_task_stem_semantics_witness :
    (add_task QueueState.init "a/x.pdf" none).1 = "x" ∧
    (add_task (add_task QueueState.init "a/x.pdf" none).2 "b/x.pdf"
      none).1 = (add_task QueueState.init "a/x.pdf" none).1 ∧
    dictGet (add_task (add_task QueueState.init "a/x.pdf" none).2 "b/x.pdf"
      none).2.results "x" = some ⟨.queued, none, none⟩ ∧
    ¬ (add_task (add_task QueueState.init "a/x.pdf" none).2 "a/y.pdf"
      none).1 = (add_task QueueState.init "a/x.pdf" none).1 := by
  have hcol := (add_task_stem_semantics QueueState.init "a/x.pdf" "b/x.pdf"
    none none).2.1 rfl
  have hdis := (add_task_stem_semantics QueueState.init "a/x.pdf" "a/y.pdf"
    none none).2.2 (by decide)
  exact ⟨rfl, hcol.1, hcol.2, hdis.1⟩

theorem string_empty_append (s : String) : "" ++ s = s := by
  cases s
  rfl

/-- C4: when no valid JSON span exists — no opening brace, no closing
brace, or the last closing brace precedes the first opening brace (the
final conjunct characterizes `extractJsonSpan = none` exactly) — or when
the extracted span fails to parse, `_parse_response` returns the fixed
fallback record, whose `name` is `"Unknown"` and `match_score` is 0; the
function is total, so no input string makes it raise. -/
theorem parse_fallback_on_bad_span (loads : String → Option Dict)
    (response : String)
    (h : extractJsonSpan response = none ∨
      ∃ s, extractJsonSpan response = some s ∧ loads s = none) :
    parseResponse loads response = fallbackRecord ∧
    dictGet fallbackRecord "name" = some (.str "Unknown") ∧
    dictGet fallbackRecord "match_score" = some (.int 0) ∧
    (extractJsonSpan response = none ↔
      ¬ '\x7b' ∈ response.toList ∨ ¬ '\x7d' ∈ response.toList ∨
      pyRFind response.toList '\x7d' < pyFind response.toList '\x7b') := by
  refine ⟨?_, rfl, rfl, ?_⟩
  · cases hc : parseResponseCore loads response with
    | error e => unfold parseResponse; rw [hc]
    | ok r =>
        obtain ⟨s', o, hs', hl', _⟩ := parseResponseCore_ok loads response r hc
        rcases h with hn | ⟨s, hs, hl⟩
        · rw [hn] at hs'; cases hs'
        · rw [hs] at hs'
          cases hs'
          rw [hl] at hl'
          cases hl'
  · have hspan : extractJsonSpan response = none ↔
        ¬ (pyFind response.toList '\x7b' ≥ 0 ∧
           pyRFind response.toList '\x7d' + 1 >
             pyFind response.toList '\x7b') := by
      unfold extractJsonSpan
      by_cases hp : pyFind response.toList '\x7b' ≥ 0 ∧
          pyRFind response.toList '\x7d' + 1 > pyFind response.toList '\x7b'
      · simp [hp]
      · simp [hp]
    rw [hspan]
    constructor
    · intro hno
      by_cases hb : '\x7b' ∈ response.toList
      · by_cases hb2 : '\x7d' ∈ response.toList
        · refine Or.inr (Or.inr ?_)
          have hjs : ¬ pyFind response.toList '\x7b' = -1 := fun e =>
            ((pyFind_eq_neg_one_iff response.toList '\x7b').mp e) hb
          have hge := pyFind_ge_neg_one response.toList '\x7b'
          omega
        · exact Or.inr (Or.inl hb2)
      · exact Or.inl hb
    · intro hcond
      rcases hcond with hb | hb2 | hlt
      · have h1 := (pyFind_eq_neg_one_iff response.toList '\x7b').mpr hb
        rintro ⟨ha, hb'⟩
        omega
      · have h2 := (pyRFind_eq_neg_one_iff response.toList '\x7d').mpr hb2
        rintro ⟨ha, hb'⟩
        omega
      · rintro ⟨ha, hb'⟩
        omega

/-- C4 witness: a braceless response with a parse oracle that always
fails still yields the fallback record. -/
theorem parse_fallback_on_bad_span_witness :
    parseResponse (fun _ => none) "hello" = fallbackRecord ∧
    dictGet fallbackRecord "name" = some (.str "Unknown") ∧
    dictGet fallbackRecord "match_score" = some (.int 0) := by
  have h := parse_fallback_on_bad_span (fun _ => none) "hello"
    (Or.inl rfl)
  exact ⟨h.1, h.2.1, h.2.2.1⟩

/-- C8 counterexample: an education entry containing only a `field`
flattens to `", CS"` — the comma connector is emitted even though every
part preceding it is absent, where the claim requires plain `"CS"`. -/
theorem flatten_edu_field_only_keeps_comma :
    flattenEduEntry [("field", Val.str "CS")] = .ok ", CS" ∧
    ¬ (", CS" = "CS") := by
  refine ⟨rfl, ?_⟩
  intro hcon
  exact absurd hcon (by decide)

/-- One education entry flattens to the amended format. -/
theorem flattenEduEntry_spec (dg inst : Option String)
    (yr fld : Option Val) :
    flattenEduEntry (eduEntryOf dg inst yr fld) =
      .ok (eduSpecFormat dg inst yr fld) := by
  rcases dg with _ | d
  · rcases inst with _ | i <;> rcases yr with _ | y <;> rcases fld with _ | f <;>
      simp [flattenEduEntry, eduEntryOf, eduSpecFormat, dictGet, strConcatVal,
        string_empty_append, Bind.bind, Except.bind, pure, Except.pure]
  · rcases inst with _ | i
    · rcases yr with _ | y <;> rcases fld with _ | f <;>
        simp [flattenEduEntry, eduEntryOf, eduSpecFormat, dictGet,
          strConcatVal, string_empty_append, Bind.bind, Except.bind, pure,
          Except.pure]
    · by_cases hd : d = "" <;>
        (rcases yr with _ | y <;> rcases fld with _ | f <;>
          simp [flattenEduEntry, eduEntryOf, eduSpecFormat, dictGet,
            strConcatVal, string_empty_append, hd, Bind.bind, Except.bind,
            pure, Except.pure])

theorem eduFold_spec
    (entries : List (Option String × Option String × Option Val × Option Val))
    (acc : List String) :
    List.foldlM eduFoldStep acc
      (entries.map (fun q => Val.dict (eduEntryOf q.1 q.2.1 q.2.2.1 q.2.2.2)))
    = .ok (acc ++ entries.map
        (fun q => eduSpecFormat q.1 q.2.1 q.2.2.1 q.2.2.2)) := by
  induction entries generalizing acc with
  | nil => simp [pure, Except.pure]
  | cons q rest ih =>
      simp only [List.map_cons, List.foldlM_cons, eduFoldStep,
        flattenEduEntry_spec]
      simp only [Bind.bind, Except.bind, pure, Except.pure]
      rw [ih (acc ++ [eduSpecFormat q.1 q.2.1 q.2.2.1 q.2.2.2])]
      simp

theorem flattenEducation_entries (d : Dict)
    (entries : List (Option String × Option String × Option Val × Option Val))
    (hed : (dictGet d "education").getD (.list []) =
      .list (entries.map
        (fun q => Val.dict (eduEntryOf q.1 q.2.1 q.2.2.1 q.2.2.2)))) :
    flattenEducation d = .ok (dictSet d "education"
      (.str ("; ".intercalate (entries.map
        (fun q => eduSpecFormat q.1 q.2.1 q.2.2.1 q.2.2.2))))) := by
  unfold flattenEducation
  rw [hed]
  show (do
    let parts ← List.foldlM eduFoldStep [] (entries.map
      (fun (q : Option String × Option String × Option Val × Option Val) =>
        Val.dict (eduEntryOf q.1 q.2.1 q.2.2.1 q.2.2.2)))
    pure (dictSet d "education" (.str ("; ".intercalate parts)))) = _
  rw [eduFold_spec entries []]
  simp [Bind.bind, Except.bind, pure, Except.pure]

/-- C8 amended: one education entry flattens to degree, then
`" from " + institution` when the accumulated prefix is nonempty (just
the institution when the degree is absent or empty), then `" (year)"`
whenever a year is present, then `", field"` whenever a field is present
— the space before `(year)` and the comma before the field are emitted
even when nothing precedes them — and a list of such entries is joined
with `"; "`. The spec examples `{degree, institution, year}` →
`"BSc from X University (2020)"` and `{institution}` → `"X"` are
instances. -/
theorem education_flattening_format (dg inst : Option String)
    (yr fld : Option Val) (d : Dict)
    (entries :
      List (Option String × Option String × Option Val × Option Val)) :
    flattenEduEntry (eduEntryOf dg inst yr fld) =
      .ok (eduSpecFormat dg inst yr fld) ∧
    ((dictGet d "education").getD (.list []) =
        .list (entries.map
          (fun q => Val.dict (eduEntryOf q.1 q.2.1 q.2.2.1 q.2.2.2))) →
      flattenEducation d = .ok (dictSet d "education"
        (.str ("; ".intercalate (entries.map
          (fun q => eduSpecFormat q.1 q.2.1 q.2.2.1 q.2.2.2)))))) :=
  ⟨flattenEduEntry_spec dg inst yr fld,
   fun hed => flattenEducation_entries d entries hed⟩

/-- C8 amended witness: the spec's two examples plus a two-entry list
joined with `"; "`. -/
theorem education_flattening_format_witness :
    flattenEduEntry (eduEntryOf (some "BSc") (some "X University")
      (some (.int 2020)) none) = .ok "BSc from X University (2020)" ∧
    flattenEduEntry (eduEntryOf none (some "X") none none) = .ok "X" ∧
    flattenEducation [("education", Val.list
      [Val.dict [("degree", Val.str "BSc"),
                 ("institution", Val.str "X University"),
                 ("year", Val.int 2020)],
       Val.dict [("institution", Val.str "X")]])] =
      .ok [("education", Val.str "BSc from X University (2020); X")] := by
  have h := education_flattening_format (some "BSc") (some "X University")
    (some (.int 2020)) none
    [("education", Val.list
      [Val.dict [("degree", Val.str "BSc"),
                 ("institution", Val.str "X University"),
                 ("year", Val.int 2020)],
       Val.dict [("institution", Val.str "X")]])]
    [(some "BSc", some "X University", some (.int 2020), none),
     (none, some "X", none, none)]
  have h2 := education_flattening_format none (some "X") none none
    ([] : Dict) []
  exact ⟨h.1.trans (by rfl), h2.1.trans (by rfl),
    (h.2 (by rfl)).trans (by rfl)⟩

/-- C3 counterexample: `&#123;"skills": [1]&#125;` is a parsable JSON object, but
`', '.join` raises `TypeError` on the non-string element, so the whole
parse degenerates to the fixed fallback record: the skills array is NOT
flattened to a comma-joined string (it comes back as `""`, with
`name = "Unknown"`), contradicting the claim's universal flattening. -/
theorem parse_skills_nonstring_falls_back :
    parseResponse
      (fun s => if s = "\x7b\"skills\": [1]\x7d"
        then some [("skills", Val.list [Val.int 1])] else none)
      "\x7b\"skills\": [1]\x7d" = fallbackRecord ∧
    dictGet (parseResponse
      (fun s => if s = "\x7b\"skills\": [1]\x7d"
        then some [("skills", Val.list [Val.int 1])] else none)
      "\x7b\"skills\": [1]\x7d") "skills" = some (.str "") ∧
    ¬ (Val.str "" = Val.str "1") := by
  refine ⟨by rfl, by rfl, ?_⟩
  intro hcon
  injection hcon with hs
  exact absurd hs (by decide)

/-- C3 amended: for every response whose extracted brace span parses to a
JSON object AND whose normalization raises no exception (in particular
every joined array holds only strings), the returned record is the
normalized one: all twelve required fields are present, `experience` is
coerced to an integer (missing, `null` or non-numeric values become 0, as
`intCoerceOr0` states), and a (possibly defaulted) skills array of
strings is flattened to a comma-joined string; when normalization raises,
the fixed fallback record is returned instead (see the counterexample). -/
theorem parse_success_normalization (loads : String → Option Dict)
    (response s : String) (o r : Dict)
    (hspan : extractJsonSpan response = some s)
    (hload : loads s = some o)
    (hnorm : normalizeInfo o = .ok r) :
    parseResponse loads response = r ∧
    (∀ f ∈ requiredFields, dictHas r f = true) ∧
    dictGet r "experience" =
      some (.int (intCoerceOr0 ((dictGet o "experience").getD (.str "")))) ∧
    (∀ ss : List String,
      (dictGet o "skills").getD (.list []) = .list (ss.map Val.str) →
      dictGet r "skills" = some (.str (", ".intercalate ss))) := by
  have hcore : parseResponseCore loads response = .ok r := by
    unfold parseResponseCore
    rw [hspan]
    show (match loads s with
      | some info => normalizeInfo info
      | none =>
          (Except.error "json.loads: Expecting value" :
            Except String Dict)) = .ok r
    rw [hload]
    exact hnorm
  refine ⟨?_, fun f hf => normalize_has o r hnorm f hf,
    normalize_experience o r hnorm,
    fun ss hss => normalize_skills o r hnorm ss hss⟩
  unfold parseResponse
  rw [hcore]

set_option maxRecDepth 8000 in
/-- C3 witness: the spec's own example — `experience: "five"` coerces to
0 and `skills: ["Go","Rust"]` flattens to `"Go, Rust"`, with all twelve
required fields present. -/
theorem parse_success_normalization_witness :
    dictGet (parseResponse
      (fun s => if s = "\x7b\"experience\": \"five\", \"skills\": [\"Go\",\"Rust\"]\x7d"
        then some [("experience", Val.str "five"),
                   ("skills", Val.list [Val.str "Go", Val.str "Rust"])]
        else none)
      "\x7b\"experience\": \"five\", \"skills\": [\"Go\",\"Rust\"]\x7d")
      "experience" = some (.int 0) ∧
    dictGet (parseResponse
      (fun s => if s = "\x7b\"experience\": \"five\", \"skills\": [\"Go\",\"Rust\"]\x7d"
        then some [("experience", Val.str "five"),
                   ("skills", Val.list [Val.str "Go", Val.str "Rust"])]
        else none)
      "\x7b\"experience\": \"five\", \"skills\": [\"Go\",\"Rust\"]\x7d")
      "skills" = some (.str "Go, Rust") ∧
    (∀ f ∈ requiredFields, dictHas (parseResponse
      (fun s => if s = "\x7b\"experience\": \"five\", \"skills\": [\"Go\",\"Rust\"]\x7d"
        then some [("experience", Val.str "five"),
                   ("skills", Val.list [Val.str "Go", Val.str "Rust"])]
        else none)
      "\x7b\"experience\": \"five\", \"skills\": [\"Go\",\"Rust\"]\x7d") f = true) := by
  have h := parse_success_normalization
    (fun s => if s = "\x7b\"experience\": \"five\", \"skills\": [\"Go\",\"Rust\"]\x7d"
      then some [("experience", Val.str "five"),
                 ("skills", Val.list [Val.str "Go", Val.str "Rust"])]
      else none)
    "\x7b\"experience\": \"five\", \"skills\": [\"Go\",\"Rust\"]\x7d"
    "\x7b\"experience\": \"five\", \"skills\": [\"Go\",\"Rust\"]\x7d"
    [("experience", Val.str "five"),
     ("skills", Val.list [Val.str "Go", Val.str "Rust"])]
    _ rfl rfl rfl
  rw [h.1]
  exact ⟨h.2.2.1.trans (by rfl),
    (h.2.2.2 ["Go", "Rust"] (by rfl)).trans (by rfl),
    h.2.1⟩

/-- C10: the sentinel record of `analyze_document`'s error path carries
exactly the keys name, email, phone, education, experience, skills,
location, filename, file_path, error (the filtered variant inserts
match_score before filename); its `name` is `"Error: "` followed by the
first 50 characters of the failure message and `"..."`; and it lacks the
linkedin, github, languages, certifications, work_history and
work_history_summary keys that every record produced by
`_parse_response` (success or fallback) carries. -/
theorem error_record_shape (p e resp : String)
    (loads : String → Option Dict) :
    dictKeys (errorRecordDoc p e) =
      ["name", "email", "phone", "education", "experience", "skills",
       "location", "filename", "file_path", "error"] ∧
    dictKeys (errorRecordFilters p e) =
      ["name", "email", "phone", "education", "experience", "skills",
       "location", "match_score", "filename", "file_path", "error"] ∧
    dictGet (errorRecordDoc p e) "name" =
      some (.str ("Error: " ++ e.take 50 ++ "...")) ∧
    dictGet (errorRecordFilters p e) "name" =
      some (.str ("Error: " ++ e.take 50 ++ "...")) ∧
    dictGet (errorRecordDoc p e) "error" = some (.str e) ∧
    dictHas (errorRecordDoc p e) "linkedin" = false ∧
    dictHas (errorRecordDoc p e) "github" = false ∧
    dictHas (errorRecordDoc p e) "languages" = false ∧
    dictHas (errorRecordDoc p e) "certifications" = false ∧
    dictHas (errorRecordDoc p e) "work_history" = false ∧
    dictHas (errorRecordDoc p e) "work_history_summary" = false ∧
    dictHas (parseResponse loads resp) "linkedin" = true ∧
    dictHas (parseResponse loads resp) "github" = true ∧
    dictHas (parseResponse loads resp) "languages" = true ∧
    dictHas (parseResponse loads resp) "certifications" = true ∧
    dictHas (parseResponse loads resp) "work_history" = true ∧
    dictHas (parseResponse loads resp) "work_history_summary" = true := by
  refine ⟨rfl, rfl, rfl, rfl, rfl, rfl, rfl, rfl, rfl, rfl, rfl,
    ?_, ?_, ?_, ?_, ?_, ?_⟩
  · exact parseResponse_has loads resp "linkedin" (by decide)
  · exact parseResponse_has loads resp "github" (by decide)
  · exact parseResponse_has loads resp "languages" (by decide)
  · exact parseResponse_has loads resp "certifications" (by decide)
  · exact parseResponse_has loads resp "work_history" (by decide)
  · exact parseResponse_has loads resp "work_history_summary" (by decide)

/-- C2: with the client library available, every failure inside the `try`
block of `analyze_document` / `analyze_document_with_filters` — in
particular extracted text that is empty or shorter than 50 characters
(after truncation), and the retry wrapper raising after exhausting
retries — produces the structured sentinel record carrying the failure
message in its `error` field, with `experience` 0 and empty identity
fields; the functions are total, so no exception reaches the caller. -/
theorem analyze_error_paths (env : GeminiEnv) (p e : String)
    (hav : env.geminiAvailable = true) :
    (analyzeDocCore env p = .error e →
      analyzeDocument env p = errorRecordDoc p e) ∧
    (analyzeFiltersCore env p = .error e →
      analyzeDocumentWithFilters env p = errorRecordFilters p e) ∧
    ((truncate30000 (env.extractText p)).length < 50 →
      analyzeDocCore env p =
        .error (shortTextMsgDoc p
          (truncate30000 (env.extractText p)).length) ∧
      analyzeFiltersCore env p = .error (shortTextMsgFilters p)) ∧
    (50 ≤ (truncate30000 (env.extractText p)).length →
      env.retryResult = .error e →
      analyzeDocCore env p = .error e ∧
      analyzeFiltersCore env p = .error e) ∧
    dictGet (errorRecordDoc p e) "error" = some (.str e) ∧
    dictGet (errorRecordDoc p e) "experience" = some (.int 0) ∧
    dictGet (errorRecordDoc p e) "email" = some (.str "") ∧
    dictGet (errorRecordDoc p e) "phone" = some (.str "") ∧
    dictGet (errorRecordDoc p e) "location" = some (.str "") ∧
    dictGet (errorRecordFilters p e) "error" = some (.str e) ∧
    dictGet (errorRecordFilters p e) "experience" = some (.int 0) := by
  refine ⟨?_, ?_, ?_, ?_, rfl, rfl, rfl, rfl, rfl, rfl, rfl⟩
  · intro h
    simp [analyzeDocument, hav, h]
  · intro h
    simp [analyzeDocumentWithFilters, hav, h]
  · intro hlen
    constructor
    · unfold analyzeDocCore
      rw [if_pos (Or.inr hlen)]
    · unfold analyzeFiltersCore
      rw [if_pos (Or.inr hlen)]
  · intro hlen hretry
    have hcond : ¬ (truncate30000 (env.extractText p) = "" ∨
        (truncate30000 (env.extractText p)).length < 50) := by
      rintro (hemp | hlt)
      · rw [hemp] at hlen
        simp at hlen
      · omega
    constructor
    · unfold analyzeDocCore
      rw [if_neg hcond, hretry]
      rfl
    · unfold analyzeFiltersCore
      rw [if_neg hcond, hretry]
      rfl

/-- C2 witness: an environment whose text extraction returns the empty
string makes `analyze_document` return the sentinel record with the
"Failed to extract meaningful text" message; one whose extraction is long
enough but whose retry wrapper raises "boom" propagates that message into
the sentinel instead. -/
theorem analyze_error_paths_witness :
    analyzeDocument
      ⟨true, fun _ => "", .error "boom", fun _ => none⟩ "cv.pdf" =
      errorRecordDoc "cv.pdf"
        "Failed to extract meaningful text from cv.pdf. Text length: 0" ∧
    dictGet (errorRecordDoc "cv.pdf"
        "Failed to extract meaningful text from cv.pdf. Text length: 0")
      "error" = some (.str
        "Failed to extract meaningful text from cv.pdf. Text length: 0") ∧
    analyzeDocument
      ⟨true, fun _ => String.mk (List.replicate 60 'a'), .error "boom",
        fun _ => none⟩ "cv.pdf" = errorRecordDoc "cv.pdf" "boom" := by
  have h1 := analyze_error_paths
    ⟨true, fun _ => "", .error "boom", fun _ => none⟩ "cv.pdf"
    "Failed to extract meaningful text from cv.pdf. Text length: 0" rfl
  have h2 := analyze_error_paths
    ⟨true, fun _ => String.mk (List.replicate 60 'a'), .error "boom",
      fun _ => none⟩ "cv.pdf" "boom" rfl
  refine ⟨h1.1 ((h1.2.2.1 (by decide)).1.trans (by rfl)), h1.2.2.2.2.1,
    h2.1 ((h2.2.2.2.1 (by decide) rfl).1)⟩

theorem isEmpty_false_of_ne (s : String) (h : ¬ s = "") :
    s.isEmpty = false := by
  rw [Bool.eq_false_iff]
  intro he
  exact h ((String.isEmpty_iff s).mp he)

/-- C9: when the structured pass keeps zero records (and raises nothing),
`filter_resumes_with_nlp` falls back to `simple_keyword_filter` on the
same query; with a non-empty token set (lowercase tokens longer than 2
characters, else any non-empty token) the fallback returns exactly the
records whose stringified, case-folded text contains at least one token;
in particular every keyword-matching record is in the final result, so a
non-empty keyword-matching set is returned instead of the empty set. -/
theorem filter_zero_match_fallback (llm : Except String String)
    (loads : String → Option Dict) (query : String) (resumes : List Dict)
    (hq : ¬ query = "") (hr : ¬ resumes = [])
    (hzero : filterListExc
      (fun r => matchesFilters r (processNlpQuery llm loads query))
      resumes = .ok []) :
    filter_resumes_with_nlp llm loads query resumes =
      simple_keyword_filter query resumes ∧
    (¬ keywordsOf query = [] →
      simple_keyword_filter query resumes = resumes.filter
        (fun r => (keywordsOf query).any
          (fun k => pyContains (lowerStr (pyRepr (.dict r))) k))) ∧
    (∀ rr ∈ resumes,
      (keywordsOf query).any
        (fun k => pyContains (lowerStr (pyRepr (.dict rr))) k) = true →
      rr ∈ filter_resumes_with_nlp llm loads query resumes) := by
  have hq' : pyTruthy (.str query) = true := by
    simp [pyTruthy, isEmpty_false_of_ne query hq]
  have hre : resumes.isEmpty = false := by
    simp [List.isEmpty_iff, hr]
  have hmain : filter_resumes_with_nlp llm loads query resumes =
      simple_keyword_filter query resumes := by
    unfold filter_resumes_with_nlp
    rw [hq', hre]
    simp [hzero]
  refine ⟨hmain, ?_, ?_⟩
  · intro hk
    have hke : (keywordsOf query).isEmpty = false := by
      simp [List.isEmpty_iff, hk]
    unfold simple_keyword_filter
    simp [hke]
  · intro rr hrr hany
    rw [hmain]
    unfold simple_keyword_filter
    by_cases hk : keywordsOf query = []
    · have hke : (keywordsOf query).isEmpty = true := by
        simp [List.isEmpty_iff, hk]
      simp only [hke, if_true]
      exact hrr
    · have hke : (keywordsOf query).isEmpty = false := by
        simp [List.isEmpty_iff, hk]
      simp only [hke, Bool.false_eq_true, if_false]
      exact List.mem_filter.mpr ⟨hrr, hany⟩

/-- C9 witness: the structured criteria (skill "Zz9") match no record, so
the query "Java developer" falls back to keyword search and keeps the
record whose text contains "java". -/
theorem filter_zero_match_fallback_witness :
    filter_resumes_with_nlp (.ok "\x7b\"skills\": [\"Zz9\"]\x7d")
      (fun s => if s = "\x7b\"skills\": [\"Zz9\"]\x7d"
        then some [("skills", Val.list [Val.str "Zz9"])] else none)
      "Java developer" [[("name", Val.str "Bob Java")]] =
      simple_keyword_filter "Java developer"
        [[("name", Val.str "Bob Java")]] ∧
    filter_resumes_with_nlp (.ok "\x7b\"skills\": [\"Zz9\"]\x7d")
      (fun s => if s = "\x7b\"skills\": [\"Zz9\"]\x7d"
        then some [("skills", Val.list [Val.str "Zz9"])] else none)
      "Java developer" [[("name", Val.str "Bob Java")]] =
      [[("name", Val.str "Bob Java")]] := by
  have h := filter_zero_match_fallback (.ok "\x7b\"skills\": [\"Zz9\"]\x7d")
    (fun s => if s = "\x7b\"skills\": [\"Zz9\"]\x7d"
      then some [("skills", Val.list [Val.str "Zz9"])] else none)
    "Java developer" [[("name", Val.str "Bob Java")]]
    (by decide) (by exact List.cons_ne_nil _ _) (by rfl)
  exact ⟨h.1, h.1.trans (by rfl)⟩

/-! ## The task-status state machine (C7) -/

theorem statusOf_def (st : SysState) (tid : String) :
    statusOf st tid =
      (dictGet st.qs.results tid).map (fun e => e.status) := rfl

theorem statusEdge_refl (a : Option TaskStatus) : statusEdge a a = true := by
  rcases a with _ | s
  · rfl
  · rcases s <;> rfl

theorem stepSys_add (st : SysState) (p : String) (uf : Option Dict) :
    stepSys st (.add p uf) =
      { qs := { queue := st.qs.queue ++ [(pathStem p, p, uf)],
                results := dictSet st.qs.results (pathStem p)
                  ⟨.queued, none, none⟩,
                processing := true },
        current := st.current } := rfl

theorem stepSys_take_go (st : SysState) (tid fp : String)
    (uf : Option Dict) (rest : List (String × String × Option Dict))
    (hcur : st.current = none)
    (hq : st.qs.queue = (tid, fp, uf) :: rest) :
    stepSys st .takeTask =
      SysState.mk
        (QueueState.mk rest
          (dictSet st.qs.results tid
            (TaskEntry.mk .processing
              ((dictGet st.qs.results tid).getD
                ⟨.queued, none, none⟩).data
              ((dictGet st.qs.results tid).getD
                ⟨.queued, none, none⟩).error))
          st.qs.processing)
        (some tid) := by
  unfold stepSys
  rw [hcur, hq]

theorem stepSys_take_stuck_cur (st : SysState) (t : String)
    (hcur : st.current = some t) : stepSys st .takeTask = st := by
  unfold stepSys
  rw [hcur]

theorem stepSys_take_stuck_empty (st : SysState)
    (hcur : st.current = none) (hq : st.qs.queue = []) :
    stepSys st .takeTask = st := by
  unfold stepSys
  rw [hcur, hq]

theorem stepSys_finish_go (st : SysState) (res : Except String Dict)
    (t : String) (hcur : st.current = some t) :
    stepSys st (.finishTask res) =
      SysState.mk
        (QueueState.mk st.qs.queue
          (dictSet st.qs.results t
            (match res with
              | .ok d => ⟨.completed, some d, none⟩
              | .error e => ⟨.failed, none, some e⟩))
          st.qs.processing)
        none := by
  unfold stepSys
  rw [hcur]

theorem stepSys_finish_stuck (st : SysState) (res : Except String Dict)
    (hcur : st.current = none) : stepSys st (.finishTask res) = st := by
  unfold stepSys
  rw [hcur]

theorem stepSys_exit_parts (st : SysState) :
    (stepSys st .exitWorker).qs.results = st.qs.results ∧
    (stepSys st .exitWorker).qs.queue = st.qs.queue ∧
    (stepSys st .exitWorker).current = st.current := by
  have h : stepSys st .exitWorker =
      if st.qs.queue.isEmpty && st.current.isNone then
        SysState.mk (QueueState.mk st.qs.queue st.qs.results false)
          st.current
      else st := rfl
  rw [h]
  split
  · exact ⟨rfl, rfl, rfl⟩
  · exact ⟨rfl, rfl, rfl⟩

/-- One collision-free step preserves the queue invariants (queued ids in
the queue, a processing current task, no duplicate queued ids) and moves
every task's status along at most one forward edge. -/
theorem inv_step (st : SysState) (s : Step)
    (i1 : ∀ e ∈ st.qs.queue, statusOf st e.1 = some .queued)
    (i2 : ∀ t, st.current = some t → statusOf st t = some .processing)
    (i3 : (st.qs.queue.map (fun e => e.1)).Nodup)
    (hok : okStep st s = true) :
    (∀ e ∈ (stepSys st s).qs.queue,
      statusOf (stepSys st s) e.1 = some .queued) ∧
    (∀ t, (stepSys st s).current = some t →
      statusOf (stepSys st s) t = some .processing) ∧
    ((stepSys st s).qs.queue.map (fun e => e.1)).Nodup ∧
    (∀ tid, statusEdge (statusOf st tid)
      (statusOf (stepSys st s) tid) = true) := by
  cases s with
  | add p uf =>
      have hno : dictHas st.qs.results (pathStem p) = false := by
        simpa [okStep] using hok
      have hnone : dictGet st.qs.results (pathStem p) = none := by
        have hh := dictHas_eq_isSome st.qs.results (pathStem p)
        rw [hno] at hh
        cases hg : dictGet st.qs.results (pathStem p) with
        | none => rfl
        | some v => rw [hg] at hh; simp at hh
      have hneOf : ∀ x, statusOf st x = some TaskStatus.queued ∨
          statusOf st x = some TaskStatus.processing → ¬ x = pathStem p := by
        intro x hx heq
        rcases hx with hx | hx <;>
          (rw [statusOf_def, heq, hnone] at hx; cases hx)
      rw [stepSys_add]
      refine ⟨?_, ?_, ?_, ?_⟩
      · intro e he
        rcases List.mem_append.mp he with he' | he'
        · have hse := i1 e he'
          have hne := hneOf e.1 (Or.inl hse)
          rw [statusOf_def] at hse ⊢
          simpa [dictGet_dictSet_ne _ _ _ _ hne] using hse
        · have : e = (pathStem p, p, uf) := by simpa using he'
          subst this
          rw [statusOf_def]
          simp [dictGet_dictSet_self]
      · intro t ht
        have hst := i2 t ht
        have hne := hneOf t (Or.inr hst)
        rw [statusOf_def] at hst ⊢
        simpa [dictGet_dictSet_ne _ _ _ _ hne] using hst
      · simp only [List.map_append]
        rw [List.nodup_append]
        refine ⟨i3, List.nodup_singleton _, ?_⟩
        intro x hx hx'
        have hxp : x = pathStem p := by simpa using hx'
        obtain ⟨e, he, hee⟩ := List.mem_map.mp hx
        exact hneOf e.1 (Or.inl (i1 e he)) (hee.trans hxp)
      · intro tid
        by_cases htid : tid = pathStem p
        · subst htid
          rw [statusOf_def, statusOf_def, hnone]
          simp [dictGet_dictSet_self, statusEdge]
        · rw [statusOf_def, statusOf_def]
          simp only [dictGet_dictSet_ne _ _ _ _ htid]
          exact statusEdge_refl _
  | takeTask =>
      rcases hcur : st.current with _ | t
      · rcases hq : st.qs.queue with _ | ⟨⟨tid, fp, uf⟩, rest⟩
        · rw [stepSys_take_stuck_empty st hcur hq]
          exact ⟨i1, i2, i3, fun tid => statusEdge_refl _⟩
        · have hhead : statusOf st tid = some .queued :=
            i1 (tid, fp, uf) (by rw [hq]; exact List.mem_cons_self _ _)
          have hnotin : ¬ tid ∈ rest.map (fun e => e.1) := by
            have h3 : (tid :: rest.map (fun e => e.1)).Nodup := by
              have := i3
              rw [hq] at this
              simpa using this
            exact (List.nodup_cons.mp h3).1
          rw [stepSys_take_go st tid fp uf rest hcur hq]
          refine ⟨?_, ?_, ?_, ?_⟩
          · intro e he
            have hne : ¬ e.1 = tid := by
              intro heq
              exact hnotin (heq ▸ List.mem_map.mpr ⟨e, he, rfl⟩)
            have hse := i1 e (by rw [hq]; exact List.mem_cons_of_mem _ he)
            rw [statusOf_def] at hse ⊢
            simpa [dictGet_dictSet_ne _ _ _ _ hne] using hse
          · intro t ht
            have : t = tid := by simpa using ht.symm
            subst this
            rw [statusOf_def]
            simp [dictGet_dictSet_self]
          · have h3 := i3
            rw [hq] at h3
            simpa using (List.nodup_cons.mp (by simpa using h3)).2
          · intro tid0
            by_cases htid : tid0 = tid
            · subst htid
              rw [hhead, statusOf_def]
              simp [dictGet_dictSet_self, statusEdge]
            · rw [statusOf_def, statusOf_def]
              simp only [dictGet_dictSet_ne _ _ _ _ htid]
              exact statusEdge_refl _
      · rw [stepSys_take_stuck_cur st t hcur]
        exact ⟨i1, i2, i3, fun tid => statusEdge_refl _⟩
  | finishTask res =>
      rcases hcur : st.current with _ | t
      · rw [stepSys_finish_stuck st res hcur]
        exact ⟨i1, i2, i3, fun tid => statusEdge_refl _⟩
      · have hpt := i2 t hcur
        rw [stepSys_finish_go st res t hcur]
        refine ⟨?_, ?_, ?_, ?_⟩
        · intro e he
          have hse := i1 e he
          have hne : ¬ e.1 = t := by
            intro heq
            rw [heq, hpt] at hse
            cases hse
          rw [statusOf_def] at hse ⊢
          simpa [dictGet_dictSet_ne _ _ _ _ hne] using hse
        · intro t' ht'
          cases ht'
        · exact i3
        · intro tid
          by_cases htid : tid = t
          · subst htid
            rw [hpt, statusOf_def]
            rcases res with d | e <;>
              simp [dictGet_dictSet_self, statusEdge]
          · rw [statusOf_def, statusOf_def]
            simp only [dictGet_dictSet_ne _ _ _ _ htid]
            exact statusEdge_refl _
  | exitWorker =>
      obtain ⟨hres, hq, hcur⟩ := stepSys_exit_parts st
      have hstat : ∀ tid, statusOf (stepSys st .exitWorker) tid =
          statusOf st tid := by
        intro tid
        rw [statusOf_def, statusOf_def, hres]
      refine ⟨?_, ?_, ?_, ?_⟩
      · intro e he
        rw [hstat]
        exact i1 e (hq ▸ he)
      · intro t ht
        rw [hstat]
        exact i2 t (hcur ▸ ht)
      · rw [hq]; exact i3
      · intro tid
        rw [hstat]
        exact statusEdge_refl _

theorem okTrace_split (st : SysState) (pre rest : List Step) :
    okTrace st (pre ++ rest) =
      (okTrace st pre && okTrace (runSteps st pre) rest) := by
  induction pre generalizing st with
  | nil => simp [okTrace, runSteps]
  | cons s pre ih =>
      have h1 : okTrace st ((s :: pre) ++ rest) =
          (okStep st s && okTrace (stepSys st s) (pre ++ rest)) := rfl
      have h2 : okTrace st (s :: pre) =
          (okStep st s && okTrace (stepSys st s) pre) := rfl
      have h3 : runSteps st (s :: pre) = runSteps (stepSys st s) pre := rfl
      rw [h1, h2, h3, ih (stepSys st s), Bool.and_assoc]

theorem inv_run (steps : List Step) (st : SysState)
    (i1 : ∀ e ∈ st.qs.queue, statusOf st e.1 = some .queued)
    (i2 : ∀ t, st.current = some t → statusOf st t = some .processing)
    (i3 : (st.qs.queue.map (fun e => e.1)).Nodup)
    (hok : okTrace st steps = true) :
    (∀ e ∈ (runSteps st steps).qs.queue,
      statusOf (runSteps st steps) e.1 = some .queued) ∧
    (∀ t, (runSteps st steps).current = some t →
      statusOf (runSteps st steps) t = some .processing) ∧
    ((runSteps st steps).qs.queue.map (fun e => e.1)).Nodup := by
  induction steps generalizing st with
  | nil => exact ⟨i1, i2, i3⟩
  | cons s steps ih =>
      have hok' : okStep st s = true ∧ okTrace (stepSys st s) steps = true := by
        simpa [okTrace, Bool.and_eq_true] using hok
      obtain ⟨j1, j2, j3, _⟩ := inv_step st s i1 i2 i3 hok'.1
      exact ih (stepSys st s) j1 j2 j3 hok'.2

/-- C7 amended: in every trace of `add_task` calls and worker steps in
which no enqueued file collides with a stem already tracked, each single
step moves each task id's recorded status along at most one forward edge
of none → queued → processing → {completed, failed}: statuses never move
backward, never skip `processing`, and never leave a terminal state. (The
counterexample shows the claim as stated fails for colliding stems.) -/
theorem task_status_single_step_edge (pre : List Step) (s : Step)
    (suf : List Step) (tid : String)
    (hok : okTrace SysState.init (pre ++ s :: suf) = true) :
    statusEdge (statusOf (runSteps SysState.init pre) tid)
      (statusOf (runSteps SysState.init (pre ++ [s])) tid) = true := by
  have hsplit := okTrace_split SysState.init pre (s :: suf)
  rw [hok] at hsplit
  have hand := (Bool.and_eq_true _ _).mp hsplit.symm
  have hpre : okTrace SysState.init pre = true := hand.1
  have hstepok : okStep (runSteps SysState.init pre) s = true := by
    have := hand.2
    simp only [okTrace, Bool.and_eq_true] at this
    exact this.1
  have i1 : ∀ e ∈ SysState.init.qs.queue,
      statusOf SysState.init e.1 = some .queued := by
    intro e he
    cases he
  have i2 : ∀ t, SysState.init.current = some t →
      statusOf SysState.init t = some .processing := by
    intro t ht
    cases ht
  have i3 : (SysState.init.qs.queue.map (fun e => e.1)).Nodup :=
    List.nodup_nil
  obtain ⟨k1, k2, k3⟩ := inv_run pre SysState.init i1 i2 i3 hpre
  have hedge := (inv_step (runSteps SysState.init pre) s k1 k2 k3
    hstepok).2.2.2 tid
  have hrun : runSteps SysState.init (pre ++ [s]) =
      stepSys (runSteps SysState.init pre) s := by
    simp [runSteps, List.foldl_append]
  rw [hrun]
  exact hedge

/-- C7 amended witness: along the concrete collision-free trace enqueue,
dequeue, finish, exit, the finishing step moves task "a" from
`processing` to `completed` — a legal forward edge. -/
theorem task_status_single_step_edge_witness :
    okTrace SysState.init
      [.add "a.pdf" none, .takeTask, .finishTask (.ok []), .exitWorker] =
      true ∧
    statusEdge
      (statusOf (runSteps SysState.init
        [.add "a.pdf" none, .takeTask]) "a")
      (statusOf (runSteps SysState.init
        [.add "a.pdf" none, .takeTask, .finishTask (.ok [])]) "a") =
      true := by
  refine ⟨rfl, ?_⟩
  exact task_status_single_step_edge [.add "a.pdf" none, .takeTask]
    (.finishTask (.ok [])) [.exitWorker] "a" rfl

/-- C7 counterexample: re-enqueuing a file whose stem collides with an
already completed task moves that id's status from `completed` back to
`queued` — a backward transition, which `statusEdge` rejects. -/
theorem task_status_goes_backward :
    statusOf (runSteps SysState.init
      [.add "a/x.pdf" none, .takeTask, .finishTask (.ok [])]) "x" =
      some .completed ∧
    statusOf (runSteps SysState.init
      [.add "a/x.pdf" none, .takeTask, .finishTask (.ok []),
       .add "b/x.pdf" none]) "x" = some .queued ∧
    statusEdge (some .completed) (some .queued) = false :=
  ⟨rfl, rfl, rfl⟩

end ResumeSorter
